import Mathlib

/-! # Table<T> (table.h / table.cpp): a shallow embedding

`Table<T>` stores a `vector<vector<T>>` together with two `unsigned int`
dimensions.  The embedding keeps the three members under their source names.

* `unsigned int` is a `Nat` below `2 ^ 32`; subtraction and addition wrap
  (`usub`, `uadd`).
* `tbl[i][j]` is the unchecked `std::vector` subscript: outside the storage the
  behaviour is undefined, which the embedding renders as `none`.
* The two function-local `static Table<T> t` objects (in `operator+` and in the
  four-argument `operator()`) live in a `Store`, next to the objects owned by
  the caller; `operator+` hands back a reference (`Ref`) to its static.
-/

/-! ## Machine arithmetic -/

/-- Subtraction on `unsigned int` : `a - b` modulo `2 ^ 32`. -/
def usub (a b : Nat) : Nat := (a + 4294967296 - b) % 4294967296

/-- Addition on `unsigned int` : `a + b` modulo `2 ^ 32`. -/
def uadd (a b : Nat) : Nat := (a + b) % 4294967296

/-! ## Loops -/

/-- The loop `for (k = 0; k < n; k++) s = body(k, s)`, where a failing
iteration (undefined behaviour) makes the whole loop fail. -/
def forUpTo {σ : Type} (n : Nat) (body : Nat → σ → Option σ) (s : σ) : Option σ :=
  match n with
  | 0 => some s
  | k + 1 => (forUpTo k body s).bind (body k)

/-- The nested loop
`for (i = 0; i < R; i++) for (j = 0; j < C; j++) s = body(i, j, s)`. -/
def forEachCell {σ : Type} (R C : Nat) (body : Nat → Nat → σ → Option σ) (s : σ) : Option σ :=
  forUpTo R (fun i => forUpTo C (fun j => body i j)) s

/-! ## The class -/

/-- The private members of `Table<T>` (table.h, lines 39-42). -/
structure Table (T : Type) where
  tbl : List (List T)
  ROWS : Nat
  COLS : Nat
deriving DecidableEq

namespace Table

variable {T : Type}

/-- Both dimensions are values of type `unsigned int`. -/
def InRange (t : Table T) : Prop := t.ROWS < 4294967296 ∧ t.COLS < 4294967296

instance (t : Table T) : Decidable t.InRange := by
  unfold InRange; exact inferInstance

/-- The storage has exactly `ROWS` rows and every row has exactly `COLS`
elements. -/
def Rect (t : Table T) : Prop := t.tbl.length = t.ROWS ∧ ∀ row ∈ t.tbl, row.length = t.COLS

instance (t : Table T) : Decidable t.Rect := by
  unfold Rect; exact inferInstance

/-- The rvalue `tbl[i][j]`: unchecked subscripts, undefined (`none`) outside
the storage. -/
def raw_get (t : Table T) (i j : Nat) : Option T :=
  (t.tbl[i]?).bind (fun row => row[j]?)

/-- The assignment `tbl[i][j] = v`: undefined (`none`) outside the storage. -/
def raw_set (t : Table T) (i j : Nat) (v : T) : Option (Table T) :=
  match t.tbl[i]? with
  | none => none
  | some row => if j < row.length then some ⟨t.tbl.set i (row.set j v), t.ROWS, t.COLS⟩ else none

/-- Table.cpp lines 33-42, `Table(unsigned int ROWS, unsigned int COLS)`:
`ROWS` rows of `COLS` value-initialised elements. -/
def ctor [Inhabited T] (ROWS COLS : Nat) : Table T :=
  ⟨List.replicate ROWS (List.replicate COLS default), ROWS, COLS⟩

/-- Table.cpp lines 52-61, `Table(unsigned int SIZE)`. -/
def ctor_size [Inhabited T] (SIZE : Nat) : Table T :=
  ⟨List.replicate SIZE (List.replicate SIZE default), SIZE, SIZE⟩

/-- Table.cpp lines 71-87, `Table(const Table<T> &t)`: fresh storage of the
dimensions of `t`, then `tbl[i][j] = t.tbl[i][j]` for every `i < ROWS`,
`j < COLS`. -/
def ctor_copy [Inhabited T] (t : Table T) : Option (Table T) :=
  forEachCell t.ROWS t.COLS
    (fun i j self => (t.raw_get i j).bind (fun v => self.raw_set i j v))
    (ctor t.ROWS t.COLS)

/-- Table.cpp line 96. -/
def get_rows (t : Table T) : Nat := t.ROWS

/-- Table.cpp line 105. -/
def get_cols (t : Table T) : Nat := t.COLS

/-- Table.cpp lines 169-178, `T& operator()(unsigned int i, unsigned int j)`:
the two clamps, then the reference `tbl[i][j]`.  The result is the position of
the cell referred to, or `none` when `tbl[i][j]` is outside the storage. -/
def operator_call (t : Table T) (i j : Nat) : Option (Nat × Nat) :=
  let i := if i ≥ t.ROWS then usub t.ROWS 1 else i
  let j := if j ≥ t.COLS then usub t.COLS 1 else j
  if (t.raw_get i j).isSome then some (i, j) else none

/-- Reading through the accessor: the value of `t(i, j)`. -/
def read (t : Table T) (i j : Nat) : Option T :=
  (t.operator_call i j).bind (fun c => t.raw_get c.1 c.2)

/-- Writing through the accessor: `t(i, j) = v`. -/
def write (t : Table T) (i j : Nat) (v : T) : Option (Table T) :=
  (t.operator_call i j).bind (fun c => t.raw_set c.1 c.2 v)

/-- Table.cpp lines 190-213, the four-argument `operator()`.  `static_t` is the
function-local `static Table<T> t` on entry (`none` before the first call);
the result is that static on exit together with the returned copy of it. -/
def operator_call4 [Inhabited T] (static_t : Option (Table T)) (this : Table T)
    (i j m n : Nat) : Option (Table T × Table T) :=
  let m := if i > m ∨ m ≥ this.ROWS then usub this.ROWS 1 else m
  let n := if j > n ∨ n ≥ this.COLS then usub this.COLS 1 else n
  let t0 : Table T :=
    match static_t with
    | some t => t
    | none => ctor (uadd (usub m i) 1) (uadd (usub n j) 1)
  (forEachCell t0.get_rows t0.get_cols
    (fun ii jj t => (this.raw_get (uadd i ii) (uadd j jj)).bind (fun v => t.write ii jj v))
    t0).bind
    (fun t => (ctor_copy t).map (fun r => (t, r)))

/-- Table.cpp lines 220-237, `void operator=(Table<T> t)`.  The parameter `t`
is the by-value copy of the argument; the result is the new value of `*this`,
all three members of which are overwritten. -/
def operator_assign [Inhabited T] (_this : Table T) (t : Table T) : Option (Table T) :=
  forEachCell t.get_rows t.get_cols
    (fun i j self => (t.read i j).bind (fun v => self.raw_set i j v))
    (ctor t.get_rows t.get_cols)

/-- Table.cpp lines 248-270, `append_rows`; the local `tt` is returned by
value. -/
def append_rows [Inhabited T] (this t : Table T) : Option (Table T) :=
  let tt0 : Table T := ctor (uadd this.ROWS t.ROWS) this.COLS
  (forEachCell tt0.get_rows tt0.get_cols
    (fun i j tt =>
      if i < this.ROWS then (this.raw_get i j).bind (fun v => tt.write i j v)
      else (t.read (usub i this.ROWS) j).bind (fun v => tt.write i j v))
    tt0).bind ctor_copy

/-- Table.cpp lines 281-303, `append_cols`; the local `tt` is returned by
value. -/
def append_cols [Inhabited T] (this t : Table T) : Option (Table T) :=
  let tt0 : Table T := ctor this.ROWS (uadd this.COLS t.COLS)
  (forEachCell tt0.get_rows tt0.get_cols
    (fun i j tt =>
      if j < this.COLS then (this.raw_get i j).bind (fun v => tt.write i j v)
      else (t.read i (usub j this.COLS)).bind (fun v => tt.write i j v))
    tt0).bind ctor_copy

end Table

/-! ## Objects and references -/

/-- What a `Table<T>&` can refer to: an object owned by the caller, or the
`static Table<T> t` of `operator+`. -/
inductive Ref where
  | var (k : Nat)
  | map_static
deriving DecidableEq

/-- The tables alive in a program: the caller's objects and the two
function-local statics (`none` while not yet constructed). -/
structure Store (T : Type) where
  vars : List (Table T)
  map_t : Option (Table T)
  slice_t : Option (Table T)
deriving DecidableEq

namespace Store

variable {T : Type}

/-- The store of a program that has not yet created any table. -/
def empty : Store T := ⟨[], none, none⟩

/-- The table a reference refers to. -/
def deref (s : Store T) : Ref → Option (Table T)
  | Ref.var k => s.vars[k]?
  | Ref.map_static => s.map_t

/-- Replace the table a reference refers to. -/
def put (s : Store T) (r : Ref) (t : Table T) : Store T :=
  match r with
  | Ref.var k => ⟨s.vars.set k t, s.map_t, s.slice_t⟩
  | Ref.map_static => ⟨s.vars, some t, s.slice_t⟩

/-- A new object owned by the caller, initialised with `t`. -/
def alloc (s : Store T) (t : Table T) : Store T × Ref :=
  (⟨s.vars ++ [t], s.map_t, s.slice_t⟩, Ref.var s.vars.length)

/-- The declaration `Table<T> x(ROWS, COLS);`. -/
def construct [Inhabited T] (s : Store T) (ROWS COLS : Nat) : Store T × Ref :=
  s.alloc (Table.ctor ROWS COLS)

/-- The declaration `Table<T> b(a);`. -/
def copy_construct [Inhabited T] (s : Store T) (a : Ref) : Option (Store T × Ref) :=
  (s.deref a).bind (fun ta => (Table.ctor_copy ta).map (fun tb => s.alloc tb))

/-- The value of `r(i, j)`. -/
def read (s : Store T) (r : Ref) (i j : Nat) : Option T :=
  (s.deref r).bind (fun t => t.read i j)

/-- The statement `r(i, j) = v;`. -/
def write (s : Store T) (r : Ref) (i j : Nat) (v : T) : Option (Store T) :=
  (s.deref r).bind (fun t => (t.write i j v).map (fun t1 => s.put r t1))

/-- The statement `b = a;` : the argument is copied into the by-value
parameter, then `operator=` runs on `b`. -/
def assign [Inhabited T] (s : Store T) (b a : Ref) : Option (Store T) :=
  (s.deref b).bind (fun tb =>
    (s.deref a).bind (fun ta =>
      (Table.ctor_copy ta).bind (fun t =>
        (Table.operator_assign tb t).map (fun tb1 => s.put b tb1))))

/-- Table.cpp lines 142-159, `Table<T>& operator+(T (*f)(T))` called on the
object `this`.  The static `t` is constructed with the receiver's dimensions
on the first call only; every iteration reads `tbl[i][j]` of the receiver as
it is at that moment (the receiver may be the static itself) and writes
through `t(i, j)`.  The result is a reference to the static. -/
def operator_plus [Inhabited T] (s : Store T) (this : Ref) (f : T → T) :
    Option (Store T × Ref) :=
  (s.deref this).bind (fun self =>
    let s0 : Store T :=
      match s.map_t with
      | some _ => s
      | none => ⟨s.vars, some (Table.ctor self.ROWS self.COLS), s.slice_t⟩
    (forEachCell self.ROWS self.COLS
      (fun i j st =>
        (st.deref this).bind (fun me =>
          (me.raw_get i j).bind (fun v =>
            st.write Ref.map_static i j (f v))))
      s0).map (fun s1 => (s1, Ref.map_static)))

/-- The four-argument `operator()` called on the object `this`: the static of
that function is threaded through the store, the result is returned by
value. -/
def operator_call4 [Inhabited T] (s : Store T) (this : Ref) (i j m n : Nat) :
    Option (Store T × Table T) :=
  (s.deref this).bind (fun self =>
    (Table.operator_call4 s.slice_t self i j m n).map
      (fun p => (⟨s.vars, s.map_t, some p.1⟩, p.2)))

end Store

/-! ## Sample inputs -/

/-- The `3×3` grid holding `3 * i + j` at `(i, j)`. -/
def grid3 : Table Nat := ⟨[[0, 1, 2], [3, 4, 5], [6, 7, 8]], 3, 3⟩

/-- The `4×4` grid holding `i * 4 + j` at `(i, j)`. -/
def grid4 : Table Nat :=
  ⟨[[0, 1, 2, 3], [4, 5, 6, 7], [8, 9, 10, 11], [12, 13, 14, 15]], 4, 4⟩

/-- The `2×2` grid `[[1, 2], [3, 4]]`. -/
def grid2 : Table Nat := ⟨[[1, 2], [3, 4]], 2, 2⟩

/-- The `1×1` grid `[[1]]`. -/
def cell1 : Table Nat := ⟨[[1]], 1, 1⟩

/-- The `1×1` grid `[[5]]`. -/
def cell5 : Table Nat := ⟨[[5]], 1, 1⟩

/-- The `1×1` grid `[[7]]`. -/
def cell7 : Table Nat := ⟨[[7]], 1, 1⟩

/-- The `1×2` grid `[[0, 0]]`. -/
def zeros12 : Table Nat := ⟨[[0, 0]], 1, 2⟩

/-- The `2×3` grid filled with `1`. -/
def ones23 : Table Nat := ⟨[[1, 1, 1], [1, 1, 1]], 2, 3⟩

/-- The `1×3` grid filled with `2`. -/
def twos13 : Table Nat := ⟨[[2, 2, 2]], 1, 3⟩

/-- The grid `Table<T>(2147483648, 1)`: `2 ^ 31` rows of one element. -/
def tall : Table Nat := Table.ctor 2147483648 1

/-- The grid `Table<T>(1, 2147483648)`: one row of `2 ^ 31` elements. -/
def wide : Table Nat := Table.ctor 1 2147483648

/-- A program state whose only object is `grid2`; no static constructed yet. -/
def store_grid2 : Store Nat := ⟨[grid2], none, none⟩

/-- A program state with the objects `cell1` and `grid2`; no static constructed
yet. -/
def store_cell1_grid2 : Store Nat := ⟨[cell1, grid2], none, none⟩

/-- A program state with the objects `cell1` and `cell5`; no static constructed
yet. -/
def store_cell1_cell5 : Store Nat := ⟨[cell1, cell5], none, none⟩

/-- A program state with the objects `cell7` and `grid2`; no static constructed
yet. -/
def store_cell7_grid2 : Store Nat := ⟨[cell7, grid2], none, none⟩

/-! ## Formatted output -/

/-- The line break written by `endl`. -/
def endl : Char := Char.ofNat 10

/-- The character of the separator `" "`. -/
def blank : Char := Char.ofNat 32

/-- The insertion `out << setw(w) << x` on a stream in its default state
(right-adjusted, fill character blank), `text` being the characters that
`operator<<` of `T` produces for `x`: `text` preceded by as many blanks as it
is shorter than `w`.  The standard library is not part of the repository; this
is its documented behaviour. -/
def setw_insert (w : Nat) (text : List Char) : List Char :=
  List.replicate (w - text.length) blank ++ text

namespace Table

variable {T : Type}

/-- Table.cpp lines 114-133, `operator<<(ostream& out, Table<T>& t)`, on a
stream whose field width is `w`: the characters written to `out`.  `render`
is the text that `operator<<` of `T` writes for an element. -/
def operator_shl (render : T → List Char) (w : Nat) (t : Table T) : Option (List Char) :=
  forUpTo t.get_rows
    (fun i out =>
      (forUpTo t.get_cols
        (fun j out => (t.read i j).map (fun x => out ++ setw_insert w (render x) ++ [blank]))
        out).map (fun out => out ++ [endl]))
    [endl]

/-- The layout that the specification words: a line break, then one line per
row, the padded elements of the row separated by a single blank, each line
ended by a line break. -/
def format_as_specified (render : T → List Char) (w : Nat) (t : Table T) : List Char :=
  endl :: (t.tbl.map (fun row =>
    [blank].intercalate (row.map (fun x => setw_insert w (render x))) ++ [endl])).flatten

end Table

/-- The decimal digits of a number, the text that `operator<<` writes for an
`unsigned int`. -/
def render_nat (n : Nat) : List Char := Nat.toDigits 10 n

/-! ## The invariant of a program state -/

namespace Store

variable {T : Type}

/-- Every table alive in the program is rectangular: the caller's objects and
the two statics, once constructed. -/
def Inv (s : Store T) : Prop :=
  (∀ t ∈ s.vars, t.Rect) ∧ (∀ t, s.map_t = some t → t.Rect) ∧
    (∀ t, s.slice_t = some t → t.Rect)

end Store

/-! ## Loop lemmas -/

/-- Invariant rule for `forUpTo`: an invariant that every iteration
re-establishes (and under which every iteration is defined) holds on exit, and
the loop is defined. -/
theorem forUpTo_inv {σ : Type} (P : Nat → σ → Prop) (n : Nat) (body : Nat → σ → Option σ)
    (s : σ) (h0 : P 0 s)
    (hstep : ∀ k st, k < n → P k st → ∃ st1, body k st = some st1 ∧ P (k + 1) st1) :
    ∃ s1, forUpTo n body s = some s1 ∧ P n s1 := by
  induction n with
  | zero => exact ⟨s, rfl, h0⟩
  | succ k ih =>
    obtain ⟨s1, hs1, hP⟩ := ih (fun k1 st hk hp => hstep k1 st (by omega) hp)
    obtain ⟨s2, hs2, hP2⟩ := hstep k s1 (by omega) hP
    exact ⟨s2, by simp [forUpTo, hs1, hs2], hP2⟩

/-- A loop whose first iteration is undefined is undefined. -/
theorem forUpTo_first_none {σ : Type} (n : Nat) (body : Nat → σ → Option σ) (s : σ)
    (hn : 0 < n) (h : body 0 s = none) : forUpTo n body s = none := by
  induction n with
  | zero => omega
  | succ k ih =>
    cases k with
    | zero => simp [forUpTo, h]
    | succ k1 =>
      have h1 := ih (by omega)
      show (forUpTo (k1 + 1) body s).bind (body (k1 + 1)) = none
      rw [h1]; rfl

namespace Table

variable {T : Type}

theorem raw_get_of_rect (t : Table T) (h : t.Rect) (i j : Nat) (hi : i < t.ROWS)
    (hj : j < t.COLS) : ∃ v, t.raw_get i j = some v := by
  obtain ⟨hlen, hrow⟩ := h
  have hi1 : i < t.tbl.length := by omega
  have hj1 : j < (t.tbl[i]).length := by
    rw [hrow _ (List.getElem_mem hi1)]; exact hj
  exact ⟨(t.tbl[i])[j], by simp [raw_get, List.getElem?_eq_getElem hi1, List.getElem?_eq_getElem hj1]⟩

theorem raw_get_none_of_rect (t : Table T) (h : t.Rect) (i j : Nat)
    (hij : t.ROWS ≤ i ∨ t.COLS ≤ j) : t.raw_get i j = none := by
  obtain ⟨hlen, hrow⟩ := h
  unfold raw_get
  by_cases hi : i < t.tbl.length
  · rw [List.getElem?_eq_getElem hi]
    have hl := hrow _ (List.getElem_mem hi)
    simp only [Option.some_bind]
    apply List.getElem?_eq_none
    omega
  · rw [List.getElem?_eq_none (by omega)]; rfl

/-- The effect of a raw assignment inside the storage. -/
theorem raw_set_spec (s : Table T) (h : s.Rect) (i j : Nat) (v : T) (hi : i < s.ROWS)
    (hj : j < s.COLS) :
    ∃ s1, s.raw_set i j v = some s1 ∧ s1.Rect ∧ s1.ROWS = s.ROWS ∧ s1.COLS = s.COLS ∧
      ∀ a b, s1.raw_get a b = if a = i ∧ b = j then some v else s.raw_get a b := by
  obtain ⟨hlen, hrow⟩ := h
  have hi1 : i < s.tbl.length := by omega
  have hl : (s.tbl[i]).length = s.COLS := hrow _ (List.getElem_mem hi1)
  refine ⟨⟨s.tbl.set i ((s.tbl[i]).set j v), s.ROWS, s.COLS⟩, ?_, ?_, rfl, rfl, ?_⟩
  · simp [raw_set, List.getElem?_eq_getElem hi1, hl, hj]
  · refine ⟨by simp [hlen], ?_⟩
    intro row hmem
    rcases List.mem_or_eq_of_mem_set hmem with h1 | h1
    · exact hrow _ h1
    · simp [h1, hl]
  · intro a b
    simp only [raw_get]
    by_cases ha : a = i
    · subst ha
      rw [List.getElem?_set_self hi1, List.getElem?_eq_getElem hi1]
      simp only [Option.some_bind, true_and]
      by_cases hb : b = j
      · subst hb
        rw [List.getElem?_set_self (by omega)]; simp
      · rw [List.getElem?_set_ne (fun h => hb h.symm)]; simp [hb]
    · rw [List.getElem?_set_ne (fun h => ha h.symm)]; simp [ha]

/-- The nested loop that assigns `val i j` to the cell `(i, j)` of a
rectangular table, for `i < R` and `j < C`, is defined and changes exactly
those cells. -/
theorem forEachCell_fill (R C : Nat) (body : Nat → Nat → Table T → Option (Table T))
    (val : Nat → Nat → T) (t0 : Table T) (hrect : t0.Rect) (hR : R ≤ t0.ROWS)
    (hC : C ≤ t0.COLS)
    (hbody : ∀ i j s, i < R → j < C → s.Rect → s.ROWS = t0.ROWS → s.COLS = t0.COLS →
      body i j s = s.raw_set i j (val i j)) :
    ∃ t1, forEachCell R C body t0 = some t1 ∧ t1.Rect ∧ t1.ROWS = t0.ROWS ∧
      t1.COLS = t0.COLS ∧
      ∀ a b, t1.raw_get a b = if a < R ∧ b < C then some (val a b) else t0.raw_get a b := by
  unfold forEachCell
  apply forUpTo_inv
    (fun i (s : Table T) => s.Rect ∧ s.ROWS = t0.ROWS ∧ s.COLS = t0.COLS ∧
      ∀ a b, s.raw_get a b = if a < i ∧ b < C then some (val a b) else t0.raw_get a b)
  · exact ⟨hrect, rfl, rfl, by intro a b; simp⟩
  · intro i s hi ⟨hsr, hsR, hsC, hsg⟩
    have key := forUpTo_inv
      (fun j (u : Table T) => u.Rect ∧ u.ROWS = t0.ROWS ∧ u.COLS = t0.COLS ∧
        ∀ a b, u.raw_get a b =
          if (a < i ∧ b < C) ∨ (a = i ∧ b < j) then some (val a b) else t0.raw_get a b)
      C (fun j => body i j) s
      ⟨hsr, hsR, hsC, by intro a b; rw [hsg a b]; simp⟩
      (by
        intro j u hj ⟨hur, huR, huC, hug⟩
        show ∃ st1, body i j u = some st1 ∧ (st1.Rect ∧ st1.ROWS = t0.ROWS ∧
          st1.COLS = t0.COLS ∧ ∀ a b, st1.raw_get a b =
            if (a < i ∧ b < C) ∨ (a = i ∧ b < j + 1) then some (val a b) else t0.raw_get a b)
        rw [hbody i j u hi hj hur huR huC]
        obtain ⟨u1, hu1, hr1, hR1, hC1, hg1⟩ :=
          raw_set_spec u hur i j (val i j) (by omega) (by omega)
        refine ⟨u1, hu1, hr1, by omega, by omega, ?_⟩
        intro a b
        rw [hg1 a b, hug a b]
        by_cases h1 : a = i ∧ b = j
        · obtain ⟨rfl, rfl⟩ := h1
          simp
        · have h2 : ((a < i ∧ b < C) ∨ (a = i ∧ b < j + 1)) ↔
              ((a < i ∧ b < C) ∨ (a = i ∧ b < j)) := by
            constructor
            · rintro (h | ⟨h3, h4⟩)
              · exact Or.inl h
              · exact Or.inr ⟨h3, by
                  rcases Nat.lt_succ_iff_lt_or_eq.mp h4 with h5 | h5
                  · exact h5
                  · exact absurd ⟨h3, h5⟩ h1⟩
            · rintro (h | ⟨h3, h4⟩)
              · exact Or.inl h
              · exact Or.inr ⟨h3, by omega⟩
          simp only [h1, if_false, h2])
    obtain ⟨u, hu, hur, huR, huC, hug⟩ := key
    refine ⟨u, hu, hur, huR, huC, ?_⟩
    intro a b
    rw [hug a b]
    have h2 : ((a < i ∧ b < C) ∨ (a = i ∧ b < C)) ↔ (a < i + 1 ∧ b < C) := by
      constructor
      · rintro (⟨h3, h4⟩ | ⟨h3, h4⟩)
        · exact ⟨by omega, h4⟩
        · exact ⟨by omega, h4⟩
      · rintro ⟨h3, h4⟩
        rcases Nat.lt_succ_iff_lt_or_eq.mp h3 with h5 | h5
        · exact Or.inl ⟨h5, h4⟩
        · exact Or.inr ⟨h5, h4⟩
    simp only [h2]

theorem ctor_ROWS [Inhabited T] (r c : Nat) : (ctor r c : Table T).ROWS = r := rfl

theorem ctor_COLS [Inhabited T] (r c : Nat) : (ctor r c : Table T).COLS = c := rfl

theorem ctor_rect [Inhabited T] (r c : Nat) : (ctor r c : Table T).Rect := by
  refine ⟨by simp [ctor], ?_⟩
  intro row hmem
  have h := List.eq_of_mem_replicate hmem
  simp [h, ctor]

theorem ctor_raw_get [Inhabited T] (r c a b : Nat) (ha : a < r) (hb : b < c) :
    (ctor r c : Table T).raw_get a b = some default := by
  simp [raw_get, ctor, List.getElem?_replicate, ha, hb]

/-- Two rectangular tables of the same dimensions that hold the same values
are the same table. -/
theorem ext_of_raw_get (t1 t2 : Table T) (h1 : t1.Rect) (h2 : t2.Rect)
    (hR : t1.ROWS = t2.ROWS) (hC : t1.COLS = t2.COLS)
    (hg : ∀ a b, a < t1.ROWS → b < t1.COLS → t1.raw_get a b = t2.raw_get a b) : t1 = t2 := by
  obtain ⟨tbl1, R1, C1⟩ := t1
  obtain ⟨tbl2, R2, C2⟩ := t2
  simp only at hR hC
  subst hR hC
  obtain ⟨hl1, hr1⟩ := h1
  obtain ⟨hl2, hr2⟩ := h2
  simp only at hl1 hr1 hl2 hr2
  have htbl : tbl1 = tbl2 := by
    apply List.ext_getElem (by omega)
    intro a ha1 ha2
    have e1 : (tbl1[a]).length = C1 := hr1 _ (List.getElem_mem ha1)
    have e2 : (tbl2[a]).length = C1 := hr2 _ (List.getElem_mem ha2)
    apply List.ext_getElem (by omega)
    intro b hb1 hb2
    have h := hg a b (by simp only; omega) (by simp only; omega)
    simp only [raw_get, List.getElem?_eq_getElem ha1, List.getElem?_eq_getElem ha2,
      Option.some_bind, List.getElem?_eq_getElem hb1, List.getElem?_eq_getElem hb2] at h
    exact Option.some.inj h
  rw [htbl]

/-- Inside the dimensions of a rectangular table the accessor does not
clamp. -/
theorem operator_call_inside (t : Table T) (h : t.Rect) (i j : Nat) (hi : i < t.ROWS)
    (hj : j < t.COLS) : t.operator_call i j = some (i, j) := by
  obtain ⟨v, hv⟩ := raw_get_of_rect t h i j hi hj
  simp [operator_call, Nat.not_le.mpr hi, Nat.not_le.mpr hj, hv]

theorem read_inside (t : Table T) (h : t.Rect) (i j : Nat) (hi : i < t.ROWS)
    (hj : j < t.COLS) : t.read i j = t.raw_get i j := by
  simp [read, operator_call_inside t h i j hi hj]

theorem write_inside (t : Table T) (h : t.Rect) (i j : Nat) (v : T) (hi : i < t.ROWS)
    (hj : j < t.COLS) : t.write i j v = t.raw_set i j v := by
  simp [write, operator_call_inside t h i j hi hj]

/-- On a rectangular table with positive dimensions the accessor refers to the
cell `(min i (ROWS - 1), min j (COLS - 1))`. -/
theorem operator_call_clamp (t : Table T) (h : t.Rect) (hr : t.InRange) (hR : 0 < t.ROWS)
    (hC : 0 < t.COLS) (i j : Nat) :
    t.operator_call i j = some (min i (t.ROWS - 1), min j (t.COLS - 1)) := by
  obtain ⟨hr1, hr2⟩ := hr
  have e1 : (if i ≥ t.ROWS then usub t.ROWS 1 else i) = min i (t.ROWS - 1) := by
    unfold usub; split <;> omega
  have e2 : (if j ≥ t.COLS then usub t.COLS 1 else j) = min j (t.COLS - 1) := by
    unfold usub; split <;> omega
  obtain ⟨v, hv⟩ := raw_get_of_rect t h (min i (t.ROWS - 1)) (min j (t.COLS - 1))
    (by omega) (by omega)
  simp only [operator_call, e1, e2, hv, Option.isSome_some, if_true]

/-- The copy constructor reproduces a rectangular table. -/
theorem ctor_copy_rect [Inhabited T] (t : Table T) (h : t.Rect) : t.ctor_copy = some t := by
  obtain ⟨t1, ht1, hr1, hR1, hC1, hg1⟩ := forEachCell_fill t.ROWS t.COLS
    (fun i j self => (t.raw_get i j).bind (fun v => self.raw_set i j v))
    (fun i j => (t.raw_get i j).getD default) (ctor t.ROWS t.COLS) (ctor_rect _ _)
    (Nat.le_refl _) (Nat.le_refl _)
    (by
      intro i j s hi hj _ _ _
      obtain ⟨v, hv⟩ := raw_get_of_rect t h i j hi hj
      simp [hv])
  unfold ctor_copy
  rw [ht1]
  congr 1
  apply ext_of_raw_get t1 t hr1 h hR1 hC1
  intro a b ha hb
  rw [hR1] at ha
  rw [hC1] at hb
  simp only [ctor_ROWS, ctor_COLS] at ha hb
  obtain ⟨v, hv⟩ := raw_get_of_rect t h a b ha hb
  rw [hg1 a b]
  simp [ha, hb, hv]

theorem read_clamp (t : Table T) (h : t.Rect) (hr : t.InRange) (hR : 0 < t.ROWS)
    (hC : 0 < t.COLS) (i j : Nat) :
    t.read i j = t.raw_get (min i (t.ROWS - 1)) (min j (t.COLS - 1)) := by
  simp [read, operator_call_clamp t h hr hR hC i j]

/-- What `append_rows` returns, on rectangular operands of which the second
has at least one column: the row count is the 32-bit sum, and the rows below
those of the receiver are read from the operand through its clamping
accessor. -/
theorem append_rows_spec [Inhabited T] (a b : Table T) (ha : a.Rect) (hb : b.Rect)
    (hra : a.InRange) (hrb : b.InRange) (hbC : 0 < b.COLS) :
    ∃ r, a.append_rows b = some r ∧ r.Rect ∧ r.ROWS = uadd a.ROWS b.ROWS ∧
      r.COLS = a.COLS ∧
      ∀ i j, i < r.ROWS → j < r.COLS →
        r.raw_get i j = (if i < a.ROWS then a.raw_get i j
          else b.raw_get (i - a.ROWS) (min j (b.COLS - 1))) ∧
        (¬ i < a.ROWS → i - a.ROWS < b.ROWS) := by
  have hover : ∀ i, i < uadd a.ROWS b.ROWS → ¬ i < a.ROWS →
      a.ROWS + b.ROWS < 4294967296 ∧ i - a.ROWS < b.ROWS := by
    intro i hi hia
    obtain ⟨h1, _⟩ := hra
    obtain ⟨h2, _⟩ := hrb
    unfold uadd at hi
    omega
  have hread : ∀ i j, i < uadd a.ROWS b.ROWS → ¬ i < a.ROWS →
      b.read (usub i a.ROWS) j = b.raw_get (i - a.ROWS) (min j (b.COLS - 1)) := by
    intro i j hi hia
    obtain ⟨h1, h2⟩ := hover i hi hia
    have e : usub i a.ROWS = i - a.ROWS := by
      unfold usub; omega
    rw [e, read_clamp b hb hrb (by omega) hbC]
    congr 1
    omega
  obtain ⟨t1, ht1, hr1, hR1, hC1, hg1⟩ := forEachCell_fill (uadd a.ROWS b.ROWS) a.COLS
    (fun i j tt =>
      if i < a.ROWS then (a.raw_get i j).bind (fun v => tt.write i j v)
      else (b.read (usub i a.ROWS) j).bind (fun v => tt.write i j v))
    (fun i j => (if i < a.ROWS then a.raw_get i j
      else b.raw_get (i - a.ROWS) (min j (b.COLS - 1))).getD default)
    (ctor (uadd a.ROWS b.ROWS) a.COLS) (ctor_rect _ _) (Nat.le_refl _) (Nat.le_refl _)
    (by
      intro i j s hi hj hs hsR hsC
      simp only [ctor_ROWS, ctor_COLS] at hsR hsC
      by_cases hia : i < a.ROWS
      · obtain ⟨v, hv⟩ := raw_get_of_rect a ha i j hia hj
        simp only [hia, if_true, hv, Option.some_bind, Option.getD_some]
        exact write_inside s hs i j v (by omega) (by omega)
      · obtain ⟨h1, h2⟩ := hover i hi hia
        obtain ⟨v, hv⟩ := raw_get_of_rect b hb (i - a.ROWS) (min j (b.COLS - 1)) h2 (by omega)
        simp only [hia, if_false, hread i j hi hia, hv, Option.some_bind, Option.getD_some]
        exact write_inside s hs i j v (by omega) (by omega))
  simp only [ctor_ROWS, ctor_COLS] at hR1 hC1
  refine ⟨t1, ?_, hr1, hR1, hC1, ?_⟩
  · unfold append_rows
    simp only [get_rows, get_cols, ctor_ROWS, ctor_COLS]
    rw [ht1]
    exact ctor_copy_rect t1 hr1
  · intro i j hi hj
    rw [hR1] at hi
    rw [hC1] at hj
    refine ⟨?_, fun hia => (hover i hi hia).2⟩
    rw [hg1 i j]
    simp only [hi, hj, and_self, if_true]
    by_cases hia : i < a.ROWS
    · obtain ⟨v, hv⟩ := raw_get_of_rect a ha i j hia hj
      simp [hia, hv]
    · obtain ⟨h1, h2⟩ := hover i hi hia
      obtain ⟨v, hv⟩ := raw_get_of_rect b hb (i - a.ROWS) (min j (b.COLS - 1)) h2 (by omega)
      simp [hia, hv]

/-- What `append_cols` returns, on rectangular operands of which the second
has at least one row: the column count is the 32-bit sum, and the columns to
the right of those of the receiver are read from the operand through its
clamping accessor. -/
theorem append_cols_spec [Inhabited T] (a b : Table T) (ha : a.Rect) (hb : b.Rect)
    (hra : a.InRange) (hrb : b.InRange) (hbR : 0 < b.ROWS) :
    ∃ r, a.append_cols b = some r ∧ r.Rect ∧ r.ROWS = a.ROWS ∧
      r.COLS = uadd a.COLS b.COLS ∧
      ∀ i j, i < r.ROWS → j < r.COLS →
        r.raw_get i j = (if j < a.COLS then a.raw_get i j
          else b.raw_get (min i (b.ROWS - 1)) (j - a.COLS)) ∧
        (¬ j < a.COLS → j - a.COLS < b.COLS) := by
  have hover : ∀ j, j < uadd a.COLS b.COLS → ¬ j < a.COLS →
      a.COLS + b.COLS < 4294967296 ∧ j - a.COLS < b.COLS := by
    intro j hj hja
    obtain ⟨_, h1⟩ := hra
    obtain ⟨_, h2⟩ := hrb
    unfold uadd at hj
    omega
  have hread : ∀ i j, j < uadd a.COLS b.COLS → ¬ j < a.COLS →
      b.read i (usub j a.COLS) = b.raw_get (min i (b.ROWS - 1)) (j - a.COLS) := by
    intro i j hj hja
    obtain ⟨h1, h2⟩ := hover j hj hja
    have e : usub j a.COLS = j - a.COLS := by
      unfold usub; omega
    rw [e, read_clamp b hb hrb hbR (by omega)]
    congr 1
    omega
  obtain ⟨t1, ht1, hr1, hR1, hC1, hg1⟩ := forEachCell_fill a.ROWS (uadd a.COLS b.COLS)
    (fun i j tt =>
      if j < a.COLS then (a.raw_get i j).bind (fun v => tt.write i j v)
      else (b.read i (usub j a.COLS)).bind (fun v => tt.write i j v))
    (fun i j => (if j < a.COLS then a.raw_get i j
      else b.raw_get (min i (b.ROWS - 1)) (j - a.COLS)).getD default)
    (ctor a.ROWS (uadd a.COLS b.COLS)) (ctor_rect _ _) (Nat.le_refl _) (Nat.le_refl _)
    (by
      intro i j s hi hj hs hsR hsC
      simp only [ctor_ROWS, ctor_COLS] at hsR hsC
      by_cases hja : j < a.COLS
      · obtain ⟨v, hv⟩ := raw_get_of_rect a ha i j hi hja
        simp only [hja, if_true, hv, Option.some_bind, Option.getD_some]
        exact write_inside s hs i j v (by omega) (by omega)
      · obtain ⟨h1, h2⟩ := hover j hj hja
        obtain ⟨v, hv⟩ := raw_get_of_rect b hb (min i (b.ROWS - 1)) (j - a.COLS) (by omega) h2
        simp only [hja, if_false, hread i j hj hja, hv, Option.some_bind, Option.getD_some]
        exact write_inside s hs i j v (by omega) (by omega))
  simp only [ctor_ROWS, ctor_COLS] at hR1 hC1
  refine ⟨t1, ?_, hr1, hR1, hC1, ?_⟩
  · unfold append_cols
    simp only [get_rows, get_cols, ctor_ROWS, ctor_COLS]
    rw [ht1]
    exact ctor_copy_rect t1 hr1
  · intro i j hi hj
    rw [hR1] at hi
    rw [hC1] at hj
    refine ⟨?_, fun hja => (hover j hj hja).2⟩
    rw [hg1 i j]
    simp only [hi, hj, and_self, if_true]
    by_cases hja : j < a.COLS
    · obtain ⟨v, hv⟩ := raw_get_of_rect a ha i j hi hja
      simp [hja, hv]
    · obtain ⟨h1, h2⟩ := hover j hj hja
      obtain ⟨v, hv⟩ := raw_get_of_rect b hb (min i (b.ROWS - 1)) (j - a.COLS) (by omega) h2
      simp [hja, hv]

/-- The first call of the four-argument `operator()` (its static not yet
constructed), with the start indices not beyond the dimensions: the static is
built with the dimensions of the forced rectangle, filled from the receiver,
and a copy of it is returned. -/
theorem operator_call4_first [Inhabited T] (this : Table T) (h : this.Rect)
    (hr : this.InRange) (hR : 0 < this.ROWS) (hC : 0 < this.COLS) (i j m n : Nat)
    (hi : i ≤ this.ROWS) (hj : j ≤ this.COLS) :
    ∃ r, operator_call4 none this i j m n = some (r, r) ∧ r.Rect ∧
      r.ROWS = (if i > m ∨ m ≥ this.ROWS then this.ROWS - 1 else m) + 1 - i ∧
      r.COLS = (if j > n ∨ n ≥ this.COLS then this.COLS - 1 else n) + 1 - j ∧
      ∀ a b, a < r.ROWS → b < r.COLS → r.raw_get a b = this.raw_get (i + a) (j + b) := by
  obtain ⟨hr1, hr2⟩ := hr
  have em : (if i > m ∨ m ≥ this.ROWS then usub this.ROWS 1 else m) =
      (if i > m ∨ m ≥ this.ROWS then this.ROWS - 1 else m) := by
    unfold usub; split <;> omega
  have en : (if j > n ∨ n ≥ this.COLS then usub this.COLS 1 else n) =
      (if j > n ∨ n ≥ this.COLS then this.COLS - 1 else n) := by
    unfold usub; split <;> omega
  unfold operator_call4
  simp only [get_rows, get_cols, ctor_ROWS, ctor_COLS, em, en]
  generalize hm1 : (if i > m ∨ m ≥ this.ROWS then this.ROWS - 1 else m) = m1
  generalize hn1 : (if j > n ∨ n ≥ this.COLS then this.COLS - 1 else n) = n1
  have hm2 : m1 < this.ROWS := by
    rw [← hm1]; split <;> omega
  have hn2 : n1 < this.COLS := by
    rw [← hn1]; split <;> omega
  have hm3 : i ≤ m1 + 1 := by
    rw [← hm1]; split <;> omega
  have hn3 : j ≤ n1 + 1 := by
    rw [← hn1]; split <;> omega
  have eR : uadd (usub m1 i) 1 = m1 + 1 - i := by
    unfold uadd usub; omega
  have eC : uadd (usub n1 j) 1 = n1 + 1 - j := by
    unfold uadd usub; omega
  rw [eR, eC]
  obtain ⟨t1, ht1, hrect1, hR1, hC1, hg1⟩ := forEachCell_fill (m1 + 1 - i) (n1 + 1 - j)
    (fun ii jj t => (this.raw_get (uadd i ii) (uadd j jj)).bind (fun v => t.write ii jj v))
    (fun a b => (this.raw_get (i + a) (j + b)).getD default)
    (ctor (m1 + 1 - i) (n1 + 1 - j)) (ctor_rect _ _) (Nat.le_refl _) (Nat.le_refl _)
    (by
      intro a b s ha hb hs hsR hsC
      simp only [ctor_ROWS, ctor_COLS] at hsR hsC
      have e1 : uadd i a = i + a := by
        unfold uadd; omega
      have e2 : uadd j b = j + b := by
        unfold uadd; omega
      obtain ⟨v, hv⟩ := raw_get_of_rect this h (i + a) (j + b) (by omega) (by omega)
      simp only [e1, e2, hv, Option.some_bind, Option.getD_some]
      exact write_inside s hs a b v (by omega) (by omega))
  simp only [ctor_ROWS, ctor_COLS] at hR1 hC1
  refine ⟨t1, ?_, hrect1, hR1, hC1, ?_⟩
  · rw [ht1]
    simp [ctor_copy_rect t1 hrect1]
  · intro a b ha hb
    rw [hR1] at ha
    rw [hC1] at hb
    obtain ⟨v, hv⟩ := raw_get_of_rect this h (i + a) (j + b) (by omega) (by omega)
    rw [hg1 a b]
    simp [ha, hb, hv]

end Table

namespace Store

variable {T : Type}

theorem deref_alloc_old (s : Store T) (t : Table T) (r : Ref) (tr : Table T)
    (h : s.deref r = some tr) : (s.alloc t).1.deref r = some tr := by
  cases r with
  | var k =>
    simp only [deref] at h
    have hk : k < s.vars.length := by
      by_contra hc
      rw [List.getElem?_eq_none (by omega)] at h
      exact Option.noConfusion h
    simp only [alloc, deref]
    rw [List.getElem?_append_left hk]
    exact h
  | map_static => exact h

theorem deref_alloc_new (s : Store T) (t : Table T) :
    (s.alloc t).1.deref (s.alloc t).2 = some t := by
  simp [alloc, deref]

theorem alloc_ne_old (s : Store T) (t : Table T) (r : Ref) (tr : Table T)
    (h : s.deref r = some tr) : (s.alloc t).2 ≠ r := by
  intro e
  subst e
  simp [alloc, deref] at h

theorem deref_put_same (s : Store T) (r : Ref) (t tr : Table T)
    (h : s.deref r = some tr) : (s.put r t).deref r = some t := by
  cases r with
  | var k =>
    simp only [deref] at h
    have hk : k < s.vars.length := by
      by_contra hc
      rw [List.getElem?_eq_none (by omega)] at h
      exact Option.noConfusion h
    simp [put, deref, List.getElem?_set_self hk]
  | map_static => rfl

theorem deref_put_other (s : Store T) (r q : Ref) (t : Table T) (h : r ≠ q) :
    (s.put r t).deref q = s.deref q := by
  cases r with
  | var k =>
    cases q with
    | var l =>
      have hkl : k ≠ l := fun e => h (by rw [e])
      simp [put, deref, List.getElem?_set_ne hkl]
    | map_static => rfl
  | map_static =>
    cases q with
    | var l => rfl
    | map_static => exact absurd rfl h

end Store

namespace Table

variable {T : Type}

/-- The operator `operator=` gives the receiver the value of its (rectangular) parameter. -/
theorem operator_assign_rect [Inhabited T] (this t : Table T) (h : t.Rect) :
    operator_assign this t = some t := by
  obtain ⟨t1, ht1, hr1, hR1, hC1, hg1⟩ := forEachCell_fill t.ROWS t.COLS
    (fun i j self => (t.read i j).bind (fun v => self.raw_set i j v))
    (fun i j => (t.raw_get i j).getD default) (ctor t.ROWS t.COLS) (ctor_rect _ _)
    (Nat.le_refl _) (Nat.le_refl _)
    (by
      intro i j s hi hj _ _ _
      obtain ⟨v, hv⟩ := raw_get_of_rect t h i j hi hj
      simp [read_inside t h i j hi hj, hv])
  unfold operator_assign
  simp only [get_rows, get_cols]
  rw [ht1]
  congr 1
  apply ext_of_raw_get t1 t hr1 h hR1 hC1
  intro a b ha hb
  rw [hR1] at ha
  rw [hC1] at hb
  simp only [ctor_ROWS, ctor_COLS] at ha hb
  obtain ⟨v, hv⟩ := raw_get_of_rect t h a b ha hb
  rw [hg1 a b]
  simp [ha, hb, hv]

/-- A write through the accessor, on a rectangular table with positive
dimensions: it is defined, keeps the dimensions and the rectangular shape, and
changes the clamped cell only. -/
theorem write_spec (t : Table T) (h : t.Rect) (hr : t.InRange) (hR : 0 < t.ROWS)
    (hC : 0 < t.COLS) (i j : Nat) (v : T) :
    ∃ t1, t.write i j v = some t1 ∧ t1.Rect ∧ t1.ROWS = t.ROWS ∧ t1.COLS = t.COLS ∧
      ∀ a b, t1.raw_get a b =
        if a = min i (t.ROWS - 1) ∧ b = min j (t.COLS - 1) then some v else t.raw_get a b := by
  obtain ⟨t1, h1, h2, h3, h4, h5⟩ := raw_set_spec t h (min i (t.ROWS - 1))
    (min j (t.COLS - 1)) v (by omega) (by omega)
  refine ⟨t1, ?_, h2, h3, h4, h5⟩
  simp [write, operator_call_clamp t h hr hR hC i j, h1]

/-- A defined write keeps the dimensions. -/
theorem write_dims (t t1 : Table T) (i j : Nat) (v : T) (h : t.write i j v = some t1) :
    t1.ROWS = t.ROWS ∧ t1.COLS = t.COLS := by
  unfold write at h
  cases hc : t.operator_call i j with
  | none => rw [hc] at h; exact Option.noConfusion h
  | some c =>
    rw [hc] at h
    simp only [Option.some_bind, raw_set] at h
    split at h
    · exact Option.noConfusion h
    · split at h
      · cases h; exact ⟨rfl, rfl⟩
      · exact Option.noConfusion h

end Table

/-! ## Indexed access -/

/-- C1: on a rectangular grid with positive dimensions, for every pair of
indices the accessor `operator()(i, j)` is an access inside the storage and
refers to the cell `(min i (ROWS - 1), min j (COLS - 1))`; on a `3×3` grid,
`(5, 1)` refers to the cell of `(2, 1)` and `(1, 9)` to the cell of `(1, 2)`. -/
theorem C1_indexed_access_clamps {T : Type} (t : Table T) (hrect : t.Rect)
    (hrange : t.InRange) (hR : 0 < t.ROWS) (hC : 0 < t.COLS) (i j : Nat) :
    t.operator_call i j = some (min i (t.ROWS - 1), min j (t.COLS - 1)) ∧
    (∃ row, t.tbl[min i (t.ROWS - 1)]? = some row ∧ min j (t.COLS - 1) < row.length) ∧
    (∃ v, t.read i j = some v ∧
      t.raw_get (min i (t.ROWS - 1)) (min j (t.COLS - 1)) = some v) ∧
    (t.ROWS = 3 → t.COLS = 3 →
      t.operator_call 5 1 = some (2, 1) ∧ t.operator_call 5 1 = t.operator_call 2 1 ∧
      t.operator_call 1 9 = some (1, 2) ∧ t.operator_call 1 9 = t.operator_call 1 2) := by
  obtain ⟨v, hv⟩ := Table.raw_get_of_rect t hrect (min i (t.ROWS - 1)) (min j (t.COLS - 1))
    (by omega) (by omega)
  refine ⟨Table.operator_call_clamp t hrect hrange hR hC i j, ?_, ⟨v, ?_, hv⟩, ?_⟩
  · have hi1 : min i (t.ROWS - 1) < t.tbl.length := by
      rw [hrect.1]; omega
    refine ⟨t.tbl[min i (t.ROWS - 1)], List.getElem?_eq_getElem hi1, ?_⟩
    rw [hrect.2 _ (List.getElem_mem hi1)]
    omega
  · rw [Table.read_clamp t hrect hrange hR hC i j, hv]
  · intro h3 h4
    have e := fun a b => Table.operator_call_clamp t hrect hrange hR hC a b
    simp only [h3, h4] at e
    simp [e]

/-- C1 at the `3×3` sample grid and the indices `(5, 1)`. -/
theorem C1_indexed_access_clamps_witness :
    grid3.Rect ∧ grid3.InRange ∧ 0 < grid3.ROWS ∧ 0 < grid3.COLS ∧
    grid3.operator_call 5 1 = some (2, 1) ∧ grid3.read 5 1 = some 7 :=
  ⟨by decide, by decide, by decide, by decide,
    (C1_indexed_access_clamps grid3 (by decide) (by decide) (by decide) (by decide) 5 1).1,
    by decide⟩

/-! ## Sub-table extraction -/

/-- C2, evaluated at the failing input: in a program whose only object is the
`2×2` grid `[[1, 2], [3, 4]]`, the call `g(0, 0, 0, 0)` followed by the call
`g(0, 0, 1, 1)` makes the second call return the `1×1` grid `[[1]]`: the static
built by the first call is reused, so the result has neither the `2` rows and
`2` columns of the requested rectangle nor its elements. -/
theorem C2_second_slice_reuses_static :
    (Store.operator_call4 store_grid2 (Ref.var 0) 0 0 0 0).bind
      (fun p => (Store.operator_call4 p.1 (Ref.var 0) 0 0 1 1).map Prod.snd)
    = some ⟨[[1]], 1, 1⟩ := by
  decide

/-- C3, refuted as stated.  On the first call, for the `1×1` grid `[[5]]` and
the start row `2` (beyond the grid), `(m - i) + 1` wraps to `4294967295` rows
and the first read `tbl[2][0]` is outside the storage: no grid is returned.
And a call that is not the first one keeps the dimensions of the first: after
`g(0, 0, 1, 1)` on the `2×2` sample grid, `g(0, 0, 0, 0)` returns a grid with
`2` rows instead of `1`. -/
theorem C3_counterexample :
    Table.operator_call4 none cell5 2 0 0 0 = none ∧
    (Store.operator_call4 store_grid2 (Ref.var 0) 0 0 1 1).bind
      (fun p => (Store.operator_call4 p.1 (Ref.var 0) 0 0 0 0).map
        (fun q => (q.2.ROWS, q.2.COLS))) = some (2, 2) := by
  constructor
  · have e1 : (if 2 > 0 ∨ 0 ≥ cell5.ROWS then usub cell5.ROWS 1 else 0) = 0 := by decide
    have e2 : (if 0 > 0 ∨ 0 ≥ cell5.COLS then usub cell5.COLS 1 else 0) = 0 := by decide
    have e3 : uadd (usub 0 2) 1 = 4294967295 := by decide
    have e4 : uadd (usub 0 0) 1 = 1 := by decide
    have hloop : forEachCell 4294967295 1
        (fun ii jj (t : Table Nat) =>
          (cell5.raw_get (uadd 2 ii) (uadd 0 jj)).bind (fun v => t.write ii jj v))
        (Table.ctor 4294967295 1) = none := by
      apply forUpTo_first_none _ _ _ (by decide)
      have e5 : cell5.raw_get (uadd 2 0) (uadd 0 0) = none := by decide
      simp only [forUpTo, e5, Option.some_bind, Option.none_bind]
    unfold Table.operator_call4
    simp only [e1, e2, e3, e4, Table.get_rows, Table.get_cols, Table.ctor_ROWS,
      Table.ctor_COLS, hloop, Option.none_bind]
  · decide

/-- C3, amended: on the first call of the four-argument `operator()` (static
not yet constructed), for a rectangular grid with positive dimensions, start
indices `i ≤ ROWS` and `j ≤ COLS` and arbitrary end indices, a grid is
returned; with the end row forced to `ROWS - 1` when `i > m` or `m ≥ ROWS`
(likewise the end column), it has `m' + 1 - i` rows and `n' + 1 - j`
columns. -/
theorem C3_first_slice_dimensions {T : Type} [Inhabited T] (this : Table T)
    (hrect : this.Rect) (hrange : this.InRange) (hR : 0 < this.ROWS) (hC : 0 < this.COLS)
    (i j m n : Nat) (hi : i ≤ this.ROWS) (hj : j ≤ this.COLS) :
    ∃ t r, Table.operator_call4 none this i j m n = some (t, r) ∧ r.Rect ∧
      r.get_rows = (if i > m ∨ m ≥ this.ROWS then this.ROWS - 1 else m) + 1 - i ∧
      r.get_cols = (if j > n ∨ n ≥ this.COLS then this.COLS - 1 else n) + 1 - j := by
  obtain ⟨r, h1, h2, h3, h4, _⟩ :=
    Table.operator_call4_first this hrect hrange hR hC i j m n hi hj
  exact ⟨r, r, h1, h2, h3, h4⟩

/-- C3 (amended) at the `4×4` sample grid with the out-of-range end indices
`(9, 9)` and the start `(1, 2)`: `3` rows and `2` columns. -/
theorem C3_first_slice_dimensions_witness :
    grid4.Rect ∧ grid4.InRange ∧ 0 < grid4.ROWS ∧ 0 < grid4.COLS ∧ 1 ≤ grid4.ROWS ∧
    2 ≤ grid4.COLS ∧
    ∃ t r, Table.operator_call4 none grid4 1 2 9 9 = some (t, r) ∧ r.Rect ∧
      r.get_rows = 3 ∧ r.get_cols = 2 :=
  ⟨by decide, by decide, by decide, by decide, by decide, by decide,
    C3_first_slice_dimensions grid4 (by decide) (by decide) (by decide) (by decide)
      1 2 9 9 (by decide) (by decide)⟩

/-! ## Mapping -/

/-- C4, evaluated at the failing input: with the objects `a = [[1]]` (`1×1`)
and `b = [[1, 2], [3, 4]]` (`2×2`), the call `a + f` followed by `b + g`, where
`g` multiplies by ten, makes the second call return the `1×1` grid `[[40]]`:
not the dimensions of `b`, and not `g` of its elements cell by cell. -/
theorem C4_second_map_wrong_dimensions :
    (Store.operator_plus store_cell1_grid2 (Ref.var 0) (fun x => x + 1)).bind
      (fun p => (Store.operator_plus p.1 (Ref.var 1) (fun x => x * 10)).bind
        (fun q => q.1.deref q.2))
    = some ⟨[[40]], 1, 1⟩ := by
  decide

/-- C5, evaluated at the failing input: with the objects `a = [[1]]` and
`b = [[5]]`, `r1 = a + f` refers to `[[2]]` right after the first call, and to
`[[6]]`, the result of `b + f`, after the second call: both calls return a
reference to the same static table. -/
theorem C5_second_map_overwrites_first_result :
    (Store.operator_plus store_cell1_cell5 (Ref.var 0) (fun x => x + 1)).bind
      (fun p => (Store.operator_plus p.1 (Ref.var 1) (fun x => x + 1)).map
        (fun q => (p.2, q.2, p.1.deref p.2, q.1.deref p.2)))
    = some (Ref.map_static, Ref.map_static, some ⟨[[2]], 1, 1⟩, some ⟨[[6]], 1, 1⟩) := by
  decide

/-! ## Concatenation -/

/-- C6, refuted as stated: for two grids of `2 ^ 31` rows and one column the
row count `ROWS + t.ROWS` wraps to `0` in `unsigned int`, so `append_rows`
returns a grid with no row, not with `2 ^ 32` rows. -/
theorem C6_counterexample :
    tall.Rect ∧ tall.InRange ∧ tall.COLS ≥ tall.COLS ∧ tall.COLS > 0 ∧
    tall.ROWS + tall.ROWS = 4294967296 ∧
    ∃ r, tall.append_rows tall = some r ∧ r.get_rows = 0 := by
  have hrect : tall.Rect := Table.ctor_rect _ _
  have hrange : tall.InRange := ⟨by decide, by decide⟩
  obtain ⟨r, h1, _, h3, _, _⟩ :=
    Table.append_rows_spec tall tall hrect hrect hrange hrange (by decide)
  exact ⟨hrect, hrange, Nat.le_refl _, by decide, by decide, r, h1, h3⟩

/-- C6, amended: for rectangular grids `a` and `b` with
`b.COLS ≥ a.COLS > 0` and `a.ROWS + b.ROWS < 2 ^ 32`, `a.append_rows(b)` has
`a.ROWS + b.ROWS` rows and `a.COLS` columns; its element `(i, j)` is `a(i, j)`
for `i < a.ROWS` and `b(i - a.ROWS, j)` for `a.ROWS ≤ i`, so the columns of `b`
beyond `a.COLS` are dropped; a `2×3` grid of `1` with a `1×3` grid of `2`
appended is the `3×3` grid with two rows of `1` and a last row of `2`. -/
theorem C6_append_rows_truncates {T : Type} [Inhabited T] (a b : Table T) (ha : a.Rect)
    (hb : b.Rect) (hra : a.InRange) (hrb : b.InRange) (hcols : b.COLS ≥ a.COLS)
    (hpos : a.COLS > 0) (hsum : a.ROWS + b.ROWS < 4294967296) :
    (∃ r, a.append_rows b = some r ∧ r.Rect ∧
      r.get_rows = a.ROWS + b.ROWS ∧ r.get_cols = a.COLS ∧
      ∀ i j, i < a.ROWS + b.ROWS → j < a.COLS →
        (∃ v, r.raw_get i j = some v) ∧
        (i < a.ROWS → r.raw_get i j = a.raw_get i j) ∧
        (a.ROWS ≤ i → r.raw_get i j = b.raw_get (i - a.ROWS) j)) ∧
    ones23.append_rows twos13 = some ⟨[[1, 1, 1], [1, 1, 1], [2, 2, 2]], 3, 3⟩ := by
  refine ⟨?_, by decide⟩
  obtain ⟨r, h1, h2, h3, h4, h5⟩ := Table.append_rows_spec a b ha hb hra hrb (by omega)
  have e : uadd a.ROWS b.ROWS = a.ROWS + b.ROWS := by
    unfold uadd; omega
  rw [e] at h3
  refine ⟨r, h1, h2, h3, h4, ?_⟩
  intro i j hi hj
  obtain ⟨h6, h7⟩ := h5 i j (by omega) (by omega)
  have hmin : min j (b.COLS - 1) = j := by omega
  rw [hmin] at h6
  refine ⟨?_, ?_, ?_⟩
  · rw [h6]
    by_cases hia : i < a.ROWS
    · simp only [hia, if_true]
      exact Table.raw_get_of_rect a ha i j hia hj
    · simp only [hia, if_false]
      exact Table.raw_get_of_rect b hb (i - a.ROWS) j (h7 hia) (by omega)
  · intro hia
    rw [h6]; simp [hia]
  · intro hia
    rw [h6]; simp [Nat.not_lt.mpr hia]

/-- C6 (amended) at the `2×3` grid of `1` and the `1×3` grid of `2`: element
`(2, 1)` of the result is `2`. -/
theorem C6_append_rows_truncates_witness :
    ones23.Rect ∧ twos13.Rect ∧ ones23.InRange ∧ twos13.InRange ∧
    twos13.COLS ≥ ones23.COLS ∧ ones23.COLS > 0 ∧
    ones23.ROWS + twos13.ROWS < 4294967296 ∧
    ∃ r, ones23.append_rows twos13 = some r ∧ r.get_rows = 3 ∧ r.get_cols = 3 :=
  ⟨by decide, by decide, by decide, by decide, by decide, by decide, by decide,
    (C6_append_rows_truncates ones23 twos13 (by decide) (by decide) (by decide) (by decide)
      (by decide) (by decide) (by decide)).1.elim
      (fun r h => ⟨r, h.1, h.2.2.1, h.2.2.2.1⟩)⟩

/-- C7, refuted as stated: appending the `1×1` grid `[[7]]` to the `1×2` grid
`[[0, 0]]` gives `[[0, 0], [7, 7]]`: element `(1, 1)`, in a column that the
operand does not have, is `7` and not the default value `0`. -/
theorem C7_counterexample :
    0 < cell7.COLS ∧ cell7.COLS < zeros12.COLS ∧
    zeros12.append_rows cell7 = some ⟨[[0, 0], [7, 7]], 2, 2⟩ ∧
    (zeros12.append_rows cell7).bind (fun r => r.raw_get 1 1) = some 7 ∧
    (7 : Nat) ≠ default := by
  decide

/-- C7, amended: for rectangular grids `a` and `b` with
`0 < b.COLS < a.COLS`, `a.append_rows(b)` is defined and every element `(i, j)`
of it with `i ≥ a.ROWS` equals `b(i - a.ROWS, j)` when `j < b.COLS` and equals
`b(i - a.ROWS, b.COLS - 1)`, the element of the last column of `b` in that row,
when `j ≥ b.COLS`. -/
theorem C7_append_rows_narrow_operand {T : Type} [Inhabited T] (a b : Table T)
    (ha : a.Rect) (hb : b.Rect) (hra : a.InRange) (hrb : b.InRange) (hpos : 0 < b.COLS)
    (hlt : b.COLS < a.COLS) :
    ∃ r, a.append_rows b = some r ∧ r.Rect ∧ r.get_rows = uadd a.ROWS b.ROWS ∧
      r.get_cols = a.COLS ∧ b.COLS < r.get_cols ∧
      ∀ i j, a.ROWS ≤ i → i < r.get_rows → j < r.get_cols →
        (∃ v, r.raw_get i j = some v) ∧ i - a.ROWS < b.ROWS ∧
        (j < b.COLS → r.raw_get i j = b.raw_get (i - a.ROWS) j) ∧
        (b.COLS ≤ j → r.raw_get i j = b.raw_get (i - a.ROWS) (b.COLS - 1)) := by
  obtain ⟨r, h1, h2, h3, h4, h5⟩ := Table.append_rows_spec a b ha hb hra hrb hpos
  refine ⟨r, h1, h2, h3, h4, by rw [Table.get_cols, h4]; exact hlt, ?_⟩
  intro i j hia hi hj
  obtain ⟨h6, h7⟩ := h5 i j hi hj
  have hn : ¬ i < a.ROWS := Nat.not_lt.mpr hia
  simp only [hn, if_false] at h6
  refine ⟨?_, h7 hn, ?_, ?_⟩
  · rw [h6]
    exact Table.raw_get_of_rect b hb _ _ (h7 hn) (by omega)
  · intro hjb
    rw [h6]
    congr 1
    omega
  · intro hjb
    rw [h6]
    congr 1
    omega

/-- C7 (amended) at `[[0, 0]]` and `[[7]]`. -/
theorem C7_append_rows_narrow_operand_witness :
    zeros12.Rect ∧ cell7.Rect ∧ zeros12.InRange ∧ cell7.InRange ∧ 0 < cell7.COLS ∧
    cell7.COLS < zeros12.COLS ∧
    ∃ r, zeros12.append_rows cell7 = some r ∧ r.get_rows = 2 ∧ r.get_cols = 2 :=
  ⟨by decide, by decide, by decide, by decide, by decide, by decide,
    (C7_append_rows_narrow_operand zeros12 cell7 (by decide) (by decide) (by decide)
      (by decide) (by decide) (by decide)).elim
      (fun r h => ⟨r, h.1, h.2.2.1, h.2.2.2.1⟩)⟩

/-- C8, refuted as stated: for two grids of one row and `2 ^ 31` columns the
column count `COLS + t.COLS` wraps to `0` in `unsigned int`, so `append_cols`
returns a grid with no column, not with `2 ^ 32` columns. -/
theorem C8_counterexample :
    wide.Rect ∧ wide.InRange ∧ wide.ROWS ≥ wide.ROWS ∧ wide.ROWS > 0 ∧
    wide.COLS + wide.COLS = 4294967296 ∧
    ∃ r, wide.append_cols wide = some r ∧ r.get_cols = 0 := by
  have hrect : wide.Rect := Table.ctor_rect _ _
  have hrange : wide.InRange := ⟨by decide, by decide⟩
  obtain ⟨r, h1, _, _, h4, _⟩ :=
    Table.append_cols_spec wide wide hrect hrect hrange hrange (by decide)
  exact ⟨hrect, hrange, Nat.le_refl _, by decide, by decide, r, h1, h4⟩

/-- C8, amended: for rectangular grids `a` and `b` with
`b.ROWS ≥ a.ROWS > 0` and `a.COLS + b.COLS < 2 ^ 32`, `a.append_cols(b)` has
`a.ROWS` rows and `a.COLS + b.COLS` columns; its element `(i, j)` is `a(i, j)`
for `j < a.COLS` and `b(i, j - a.COLS)` for `a.COLS ≤ j`, so the rows of `b`
beyond `a.ROWS` are dropped. -/
theorem C8_append_cols_truncates {T : Type} [Inhabited T] (a b : Table T) (ha : a.Rect)
    (hb : b.Rect) (hra : a.InRange) (hrb : b.InRange) (hrows : b.ROWS ≥ a.ROWS)
    (hpos : a.ROWS > 0) (hsum : a.COLS + b.COLS < 4294967296) :
    ∃ r, a.append_cols b = some r ∧ r.Rect ∧
      r.get_rows = a.ROWS ∧ r.get_cols = a.COLS + b.COLS ∧
      ∀ i j, i < a.ROWS → j < a.COLS + b.COLS →
        (∃ v, r.raw_get i j = some v) ∧
        (j < a.COLS → r.raw_get i j = a.raw_get i j) ∧
        (a.COLS ≤ j → r.raw_get i j = b.raw_get i (j - a.COLS)) := by
  obtain ⟨r, h1, h2, h3, h4, h5⟩ := Table.append_cols_spec a b ha hb hra hrb (by omega)
  have e : uadd a.COLS b.COLS = a.COLS + b.COLS := by
    unfold uadd; omega
  rw [e] at h4
  refine ⟨r, h1, h2, h3, h4, ?_⟩
  intro i j hi hj
  obtain ⟨h6, h7⟩ := h5 i j (by omega) (by omega)
  have hmin : min i (b.ROWS - 1) = i := by omega
  rw [hmin] at h6
  refine ⟨?_, ?_, ?_⟩
  · rw [h6]
    by_cases hja : j < a.COLS
    · simp only [hja, if_true]
      exact Table.raw_get_of_rect a ha i j hi hja
    · simp only [hja, if_false]
      exact Table.raw_get_of_rect b hb i (j - a.COLS) (by omega) (h7 hja)
  · intro hja
    rw [h6]; simp [hja]
  · intro hja
    rw [h6]; simp [Nat.not_lt.mpr hja]

/-- C8 (amended) at the `2×2` sample grid appended to the `1×1` grid `[[7]]`:
the result is `[[7, 1, 2]]`, the second row of the operand being dropped. -/
theorem C8_append_cols_truncates_witness :
    cell7.Rect ∧ grid2.Rect ∧ cell7.InRange ∧ grid2.InRange ∧ grid2.ROWS ≥ cell7.ROWS ∧
    cell7.ROWS > 0 ∧ cell7.COLS + grid2.COLS < 4294967296 ∧
    (∃ r, cell7.append_cols grid2 = some r ∧ r.get_rows = 1 ∧ r.get_cols = 3) ∧
    cell7.append_cols grid2 = some ⟨[[7, 1, 2]], 1, 3⟩ :=
  ⟨by decide, by decide, by decide, by decide, by decide, by decide, by decide,
    (C8_append_cols_truncates cell7 grid2 (by decide) (by decide) (by decide) (by decide)
      (by decide) (by decide) (by decide)).elim
      (fun r h => ⟨r, h.1, h.2.2.1, h.2.2.2.1⟩),
    by decide⟩

/-! ## Copying and assignment -/

/-- C9: for every object `a` holding a rectangular grid, the declaration
`Table<T> b(a);` is defined and creates a new object `b`, distinct from `a`,
with the dimensions of `a` and the same element at every index, whatever the
contents of `a`; `a` is unchanged; and a later write through `b(0, 0)`
(defined as soon as the dimensions are positive) changes `b(0, 0)` and leaves
`a`, its element `(0, 0)` included, as it was. -/
theorem C9_copy_construct_deep_copy {T : Type} [Inhabited T] (s : Store T) (a : Ref)
    (ta : Table T) (ha : s.deref a = some ta) (hrect : ta.Rect) :
    ∃ s1 b, s.copy_construct a = some (s1, b) ∧ b ≠ a ∧ s1.deref a = some ta ∧
      (∃ tb, s1.deref b = some tb ∧ tb.get_rows = ta.get_rows ∧
        tb.get_cols = ta.get_cols ∧
        ∀ i j, tb.raw_get i j = ta.raw_get i j ∧ s1.read b i j = s1.read a i j) ∧
      (∀ v s2, s1.write b 0 0 v = some s2 →
        s2.deref a = some ta ∧ s2.read a 0 0 = s.read a 0 0) ∧
      (0 < ta.ROWS → 0 < ta.COLS → ∀ v, ∃ s2, s1.write b 0 0 v = some s2 ∧
        s2.read b 0 0 = some v ∧ s2.deref a = some ta) := by
  have hb : (s.alloc ta).2 ≠ a := Store.alloc_ne_old s ta a ta ha
  have hda : (s.alloc ta).1.deref a = some ta := Store.deref_alloc_old s ta a ta ha
  have hdb : (s.alloc ta).1.deref (s.alloc ta).2 = some ta := Store.deref_alloc_new s ta
  have hframe : ∀ v s2, (s.alloc ta).1.write (s.alloc ta).2 0 0 v = some s2 →
      s2.deref a = some ta := by
    intro v s2 hw
    simp only [Store.write, hdb, Option.some_bind] at hw
    cases hw1 : ta.write 0 0 v with
    | none => rw [hw1] at hw; exact Option.noConfusion hw
    | some t1 =>
      rw [hw1] at hw
      simp only [Option.map_some', Option.some.injEq] at hw
      rw [← hw, Store.deref_put_other _ _ _ _ hb]
      exact hda
  refine ⟨(s.alloc ta).1, (s.alloc ta).2, ?_, hb, hda, ⟨ta, hdb, rfl, rfl, ?_⟩, ?_, ?_⟩
  · simp [Store.copy_construct, ha, Table.ctor_copy_rect ta hrect]
  · intro i j
    exact ⟨rfl, by simp only [Store.read, hdb, hda]⟩
  · intro v s2 hw
    have h1 := hframe v s2 hw
    exact ⟨h1, by simp only [Store.read, h1, ha]⟩
  · intro hR hC v
    obtain ⟨t1, hw1, hr1, hR1, hC1, hg1⟩ := Table.raw_set_spec ta hrect 0 0 v hR hC
    have hw2 : ta.write 0 0 v = some t1 := by
      rw [Table.write_inside ta hrect 0 0 v hR hC]; exact hw1
    have hw : (s.alloc ta).1.write (s.alloc ta).2 0 0 v
        = some ((s.alloc ta).1.put (s.alloc ta).2 t1) := by
      simp only [Store.write, hdb, Option.some_bind, hw2, Option.map_some']
    refine ⟨_, hw, ?_, hframe v _ hw⟩
    simp only [Store.read, Store.deref_put_same _ _ t1 ta hdb, Option.some_bind]
    rw [Table.read_inside t1 hr1 0 0 (by omega) (by omega), hg1 0 0]
    simp

/-- C9 at the program state whose only object is the `2×2` sample grid. -/
theorem C9_copy_construct_deep_copy_witness :
    store_grid2.deref (Ref.var 0) = some grid2 ∧ grid2.Rect ∧
    ∃ s1 b, store_grid2.copy_construct (Ref.var 0) = some (s1, b) ∧ b ≠ Ref.var 0 ∧
      s1.deref (Ref.var 0) = some grid2 :=
  ⟨by decide, by decide,
    (C9_copy_construct_deep_copy store_grid2 (Ref.var 0) grid2 (by decide) (by decide)).elim
      (fun s1 h => h.elim (fun b hb => ⟨s1, b, hb.1, hb.2.1, hb.2.2.1⟩))⟩

/-- C10: for every object `b` (whatever it holds) and every object `a`
holding a rectangular grid, the statement `b = a;` is defined; afterwards `b`
holds the dimensions of `a` and the same element at every index, every other
object, `a` included, is unchanged, and (when `b` and `a` are distinct
objects) a later write through `b(i, j)`, defined as soon as the dimensions
are positive, leaves `a` as it was. -/
theorem C10_assign_replaces {T : Type} [Inhabited T] (s : Store T) (b a : Ref)
    (tb ta : Table T) (hb : s.deref b = some tb) (ha : s.deref a = some ta)
    (hrect : ta.Rect) :
    ∃ s1, s.assign b a = some s1 ∧
      (∃ tb1, s1.deref b = some tb1 ∧ tb1.get_rows = ta.get_rows ∧
        tb1.get_cols = ta.get_cols ∧ ∀ i j, tb1.raw_get i j = ta.raw_get i j) ∧
      s1.deref a = some ta ∧ (∀ q, q ≠ b → s1.deref q = s.deref q) ∧
      (b ≠ a → ∀ i j v s2, s1.write b i j v = some s2 → s2.deref a = some ta) ∧
      (b ≠ a → ta.InRange → 0 < ta.ROWS → 0 < ta.COLS → ∀ i j v, ∃ s2,
        s1.write b i j v = some s2 ∧ s2.read b i j = some v ∧ s2.deref a = some ta) := by
  have hdb : (s.put b ta).deref b = some ta := Store.deref_put_same s b ta tb hb
  have hda : (s.put b ta).deref a = some ta := by
    by_cases e : b = a
    · rw [← e]; exact hdb
    · rw [Store.deref_put_other s b a ta e]; exact ha
  have hframe : b ≠ a → ∀ i j v s2, (s.put b ta).write b i j v = some s2 →
      s2.deref a = some ta := by
    intro hne i j v s2 hw
    simp only [Store.write, hdb, Option.some_bind] at hw
    cases hw1 : ta.write i j v with
    | none => rw [hw1] at hw; exact Option.noConfusion hw
    | some t1 =>
      rw [hw1] at hw
      simp only [Option.map_some', Option.some.injEq] at hw
      rw [← hw, Store.deref_put_other _ _ _ _ hne]
      exact hda
  refine ⟨s.put b ta, ?_, ⟨ta, hdb, rfl, rfl, fun _ _ => rfl⟩, hda, ?_, hframe, ?_⟩
  · simp [Store.assign, hb, ha, Table.ctor_copy_rect ta hrect,
      Table.operator_assign_rect tb ta hrect]
  · intro q hq
    exact Store.deref_put_other s b q ta (fun e => hq e.symm)
  · intro hne hrange hR hC i j v
    obtain ⟨t1, hw1, hr1, hR1, hC1, hg1⟩ := Table.write_spec ta hrect hrange hR hC i j v
    have hw : (s.put b ta).write b i j v = some ((s.put b ta).put b t1) := by
      simp only [Store.write, hdb, Option.some_bind, hw1, Option.map_some']
    refine ⟨_, hw, ?_, hframe hne i j v _ hw⟩
    simp only [Store.read, Store.deref_put_same _ _ t1 ta hdb, Option.some_bind]
    rw [Table.read_clamp t1 hr1 ⟨by rw [hR1]; exact hrange.1, by rw [hC1]; exact hrange.2⟩
      (by omega) (by omega), hg1, hR1, hC1]
    simp

/-- C10 at a program state with the objects `[[7]]` and the `2×2` sample grid:
after `b = a` the first object holds the `2×2` grid. -/
theorem C10_assign_replaces_witness :
    store_cell7_grid2.deref (Ref.var 0) = some cell7 ∧
    store_cell7_grid2.deref (Ref.var 1) = some grid2 ∧ grid2.Rect ∧
    ∃ s1, store_cell7_grid2.assign (Ref.var 0) (Ref.var 1) = some s1 ∧
      s1.deref (Ref.var 1) = some grid2 :=
  ⟨by decide, by decide, by decide,
    (C10_assign_replaces store_cell7_grid2 (Ref.var 0) (Ref.var 1) cell7 grid2 (by decide)
      (by decide) (by decide)).elim
      (fun s1 h => ⟨s1, h.1, h.2.2.1⟩)⟩

/-! ## Further loop lemmas -/

/-- A property that every defined iteration keeps is kept by a defined loop. -/
theorem forUpTo_preserves {σ : Type} (P : σ → Prop) (n : Nat) (body : Nat → σ → Option σ)
    (hstep : ∀ k st st1, P st → body k st = some st1 → P st1) (s s1 : σ) (h0 : P s)
    (h : forUpTo n body s = some s1) : P s1 := by
  induction n generalizing s1 with
  | zero =>
    simp only [forUpTo, Option.some.injEq] at h
    rw [← h]; exact h0
  | succ k ih =>
    simp only [forUpTo] at h
    cases hk : forUpTo k body s with
    | none => rw [hk] at h; exact Option.noConfusion h
    | some s2 =>
      rw [hk] at h
      exact hstep k s2 s1 (ih s2 hk) h

/-- A loop on a state that embeds another state, every iteration of which acts
on the embedded state only, is the embedded loop. -/
theorem forUpTo_lift {σ τ : Type} (lift : τ → σ) (n : Nat) (bodyS : Nat → σ → Option σ)
    (bodyT : Nat → τ → Option τ)
    (h : ∀ k t, k < n → bodyS k (lift t) = (bodyT k t).map lift) (t : τ) :
    forUpTo n bodyS (lift t) = (forUpTo n bodyT t).map lift := by
  induction n with
  | zero => rfl
  | succ k ih =>
    simp only [forUpTo]
    rw [ih (fun k1 t1 hk => h k1 t1 (by omega))]
    cases forUpTo k bodyT t with
    | none => rfl
    | some t1 => exact h k t1 (by omega)

namespace Table

variable {T : Type}

/-- A defined raw assignment keeps a table rectangular. -/
theorem raw_set_rect (t t1 : Table T) (i j : Nat) (v : T) (h : t.Rect)
    (hs : t.raw_set i j v = some t1) : t1.Rect := by
  obtain ⟨hlen, hrow⟩ := h
  unfold raw_set at hs
  split at hs
  · exact Option.noConfusion hs
  · rename_i row hrowi
    split at hs
    · simp only [Option.some.injEq] at hs
      rw [← hs]
      refine ⟨by simp [hlen], ?_⟩
      intro r hmem
      rcases List.mem_or_eq_of_mem_set hmem with h1 | h1
      · exact hrow _ h1
      · have hm : row ∈ t.tbl := List.getElem?_mem hrowi
        rw [h1, List.length_set]
        exact hrow _ hm
    · exact Option.noConfusion hs

/-- A defined raw assignment keeps the dimensions. -/
theorem raw_set_dims (t t1 : Table T) (i j : Nat) (v : T)
    (hs : t.raw_set i j v = some t1) : t1.ROWS = t.ROWS ∧ t1.COLS = t.COLS := by
  unfold raw_set at hs
  split at hs
  · exact Option.noConfusion hs
  · split at hs
    · cases hs; exact ⟨rfl, rfl⟩
    · exact Option.noConfusion hs

/-- A defined write through the accessor keeps a table rectangular. -/
theorem write_rect (t t1 : Table T) (i j : Nat) (v : T) (h : t.Rect)
    (hw : t.write i j v = some t1) : t1.Rect := by
  unfold write at hw
  cases hc : t.operator_call i j with
  | none => rw [hc] at hw; exact Option.noConfusion hw
  | some c =>
    rw [hc] at hw
    exact raw_set_rect t t1 c.1 c.2 v h hw

/-- A defined nested loop, every iteration of which assigns one value by a raw
assignment or through the accessor, keeps a table rectangular and keeps its
dimensions. -/
theorem forEachCell_rect (R C : Nat) (body : Nat → Nat → Table T → Option (Table T))
    (hbody : ∀ i j s s1, body i j s = some s1 →
      ∃ a b v, s.raw_set a b v = some s1)
    (t0 t1 : Table T) (h0 : t0.Rect) (h : forEachCell R C body t0 = some t1) :
    t1.Rect ∧ t1.ROWS = t0.ROWS ∧ t1.COLS = t0.COLS := by
  unfold forEachCell at h
  apply forUpTo_preserves
    (fun (s : Table T) => s.Rect ∧ s.ROWS = t0.ROWS ∧ s.COLS = t0.COLS) R _ _ t0 t1
    ⟨h0, rfl, rfl⟩ h
  intro i s s1 hs hi
  apply forUpTo_preserves
    (fun (s : Table T) => s.Rect ∧ s.ROWS = t0.ROWS ∧ s.COLS = t0.COLS) C _ _ s s1 hs hi
  intro j u u1 ⟨hu, huR, huC⟩ hj
  obtain ⟨a, b, v, hset⟩ := hbody i j u u1 hj
  have hd := raw_set_dims u u1 a b v hset
  exact ⟨raw_set_rect u u1 a b v hu hset, by omega, by omega⟩

/-- A value bound and then written: the step is a raw assignment. -/
theorem bind_write_is_raw_set (x : Option T) (s s1 : Table T) (i j : Nat)
    (h : x.bind (fun v => s.write i j v) = some s1) : ∃ a b v, s.raw_set a b v = some s1 := by
  cases x with
  | none => exact Option.noConfusion h
  | some v =>
    simp only [Option.some_bind, write] at h
    cases hc : s.operator_call i j with
    | none => rw [hc] at h; exact Option.noConfusion h
    | some c =>
      rw [hc] at h
      exact ⟨c.1, c.2, v, h⟩

/-- A value bound and then assigned: the step is a raw assignment. -/
theorem bind_raw_set_is_raw_set (x : Option T) (s s1 : Table T) (i j : Nat)
    (h : x.bind (fun v => s.raw_set i j v) = some s1) :
    ∃ a b v, s.raw_set a b v = some s1 := by
  cases x with
  | none => exact Option.noConfusion h
  | some v => exact ⟨i, j, v, h⟩

end Table

namespace Table

variable {T : Type}

/-- Whatever the copy constructor produces is rectangular and has the
dimensions of its argument. -/
theorem ctor_copy_result_rect [Inhabited T] (t r : Table T) (h : t.ctor_copy = some r) :
    r.Rect ∧ r.ROWS = t.ROWS ∧ r.COLS = t.COLS := by
  unfold ctor_copy at h
  exact forEachCell_rect t.ROWS t.COLS _
    (fun i j s s1 hb => bind_raw_set_is_raw_set _ s s1 i j hb) (ctor t.ROWS t.COLS) r
    (ctor_rect _ _) h

/-- Whatever `operator=` leaves in the receiver is rectangular. -/
theorem operator_assign_result_rect [Inhabited T] (this t r : Table T)
    (h : operator_assign this t = some r) : r.Rect := by
  unfold operator_assign at h
  exact (forEachCell_rect t.get_rows t.get_cols _
    (fun i j s s1 hb => bind_raw_set_is_raw_set _ s s1 i j hb) (ctor t.get_rows t.get_cols) r
    (ctor_rect _ _) h).1

/-- Whatever `append_rows` returns is rectangular. -/
theorem append_rows_result_rect [Inhabited T] (a b r : Table T)
    (h : a.append_rows b = some r) : r.Rect := by
  unfold append_rows at h
  simp only [get_rows, get_cols, ctor_ROWS, ctor_COLS] at h
  cases hl : forEachCell (uadd a.ROWS b.ROWS) a.COLS
      (fun i j tt =>
        if i < a.ROWS then (a.raw_get i j).bind (fun v => tt.write i j v)
        else (b.read (usub i a.ROWS) j).bind (fun v => tt.write i j v))
      (ctor (uadd a.ROWS b.ROWS) a.COLS) with
  | none => rw [hl] at h; exact Option.noConfusion h
  | some tt =>
    rw [hl] at h
    exact (ctor_copy_result_rect tt r h).1

/-- Whatever `append_cols` returns is rectangular. -/
theorem append_cols_result_rect [Inhabited T] (a b r : Table T)
    (h : a.append_cols b = some r) : r.Rect := by
  unfold append_cols at h
  simp only [get_rows, get_cols, ctor_ROWS, ctor_COLS] at h
  cases hl : forEachCell a.ROWS (uadd a.COLS b.COLS)
      (fun i j tt =>
        if j < a.COLS then (a.raw_get i j).bind (fun v => tt.write i j v)
        else (b.read i (usub j a.COLS)).bind (fun v => tt.write i j v))
      (ctor a.ROWS (uadd a.COLS b.COLS)) with
  | none => rw [hl] at h; exact Option.noConfusion h
  | some tt =>
    rw [hl] at h
    exact (ctor_copy_result_rect tt r h).1

/-- The four-argument `operator()`, on any call: when its static is
rectangular on entry (or not yet constructed), the static on exit and the
returned table are rectangular. -/
theorem operator_call4_result_rect [Inhabited T] (st : Option (Table T)) (this : Table T)
    (i j m n : Nat) (t1 r : Table T) (hst : ∀ t, st = some t → t.Rect)
    (h : operator_call4 st this i j m n = some (t1, r)) : t1.Rect ∧ r.Rect := by
  unfold operator_call4 at h
  simp only [get_rows, get_cols] at h
  generalize ht0 : (match st with
    | some t => t
    | none => (ctor
        (uadd (usub (if i > m ∨ m ≥ this.ROWS then usub this.ROWS 1 else m) i) 1)
        (uadd (usub (if j > n ∨ n ≥ this.COLS then usub this.COLS 1 else n) j) 1) :
          Table T)) = t0 at h
  have hrect0 : t0.Rect := by
    cases st with
    | none => rw [← ht0]; exact ctor_rect _ _
    | some t => rw [← ht0]; exact hst t rfl
  cases hl : forEachCell t0.ROWS t0.COLS
      (fun ii jj t =>
        (this.raw_get (uadd i ii) (uadd j jj)).bind (fun v => t.write ii jj v)) t0 with
  | none => rw [hl] at h; exact Option.noConfusion h
  | some t2 =>
    rw [hl] at h
    have hr2 := (forEachCell_rect _ _ _
      (fun a b s s1 hb => bind_write_is_raw_set _ s s1 a b hb) t0 t2 hrect0 hl).1
    simp only [Option.some_bind, ctor_copy_rect t2 hr2, Option.map_some', Option.some.injEq,
      Prod.mk.injEq] at h
    obtain ⟨e1, e2⟩ := h
    rw [← e1, ← e2]
    exact ⟨hr2, hr2⟩

end Table

namespace Store

variable {T : Type}

theorem empty_inv : (Store.empty : Store T).Inv := by
  refine ⟨?_, ?_, ?_⟩
  · intro t ht; simp [empty] at ht
  · intro t ht; simp [empty] at ht
  · intro t ht; simp [empty] at ht

theorem deref_rect (s : Store T) (h : s.Inv) (r : Ref) (t : Table T)
    (hd : s.deref r = some t) : t.Rect := by
  cases r with
  | var k => exact h.1 t (List.getElem?_mem hd)
  | map_static => exact h.2.1 t hd

theorem put_inv (s : Store T) (h : s.Inv) (r : Ref) (t : Table T) (ht : t.Rect) :
    (s.put r t).Inv := by
  cases r with
  | var k =>
    refine ⟨?_, h.2.1, h.2.2⟩
    intro u hu
    rcases List.mem_or_eq_of_mem_set hu with h1 | h1
    · exact h.1 u h1
    · rw [h1]; exact ht
  | map_static =>
    refine ⟨h.1, ?_, h.2.2⟩
    intro u hu
    simp only [put, Option.some.injEq] at hu
    rw [← hu]; exact ht

theorem alloc_inv (s : Store T) (h : s.Inv) (t : Table T) (ht : t.Rect) :
    (s.alloc t).1.Inv := by
  refine ⟨?_, h.2.1, h.2.2⟩
  intro u hu
  simp only [alloc, List.mem_append, List.mem_singleton] at hu
  rcases hu with h1 | h1
  · exact h.1 u h1
  · rw [h1]; exact ht

/-- A defined write through a reference keeps the invariant. -/
theorem write_inv (s s1 : Store T) (h : s.Inv) (r : Ref) (i j : Nat) (v : T)
    (hw : s.write r i j v = some s1) : s1.Inv := by
  unfold write at hw
  cases hd : s.deref r with
  | none => rw [hd] at hw; exact Option.noConfusion hw
  | some t =>
    rw [hd] at hw
    simp only [Option.some_bind] at hw
    cases hw1 : t.write i j v with
    | none => rw [hw1] at hw; exact Option.noConfusion hw
    | some t1 =>
      rw [hw1] at hw
      simp only [Option.map_some', Option.some.injEq] at hw
      rw [← hw]
      exact put_inv s h r t1 (Table.write_rect t t1 i j v (deref_rect s h r t hd) hw1)

/-- A defined call of `operator+` keeps the invariant, and the reference it
returns refers to a rectangular table. -/
theorem operator_plus_inv [Inhabited T] (s s1 : Store T) (h : s.Inv) (this r : Ref)
    (f : T → T) (hp : s.operator_plus this f = some (s1, r)) :
    s1.Inv ∧ ∃ t, s1.deref r = some t ∧ t.Rect := by
  unfold operator_plus at hp
  cases hd : s.deref this with
  | none => rw [hd] at hp; exact Option.noConfusion hp
  | some self =>
    rw [hd] at hp
    simp only [Option.some_bind] at hp
    generalize hs0 : (match s.map_t with
      | some _ => s
      | none => (⟨s.vars, some (Table.ctor self.ROWS self.COLS), s.slice_t⟩ : Store T)) = s0
      at hp
    have h0 : s0.Inv ∧ ∃ t, s0.map_t = some t := by
      cases hm : s.map_t with
      | none =>
        rw [hm] at hs0
        rw [← hs0]
        refine ⟨⟨h.1, ?_, h.2.2⟩, _, rfl⟩
        intro u hu
        simp only [Option.some.injEq] at hu
        rw [← hu]; exact Table.ctor_rect _ _
      | some t =>
        rw [hm] at hs0
        rw [← hs0]
        exact ⟨h, t, hm⟩
    cases hl : forEachCell self.ROWS self.COLS
        (fun i j st =>
          (st.deref this).bind (fun me =>
            (me.raw_get i j).bind (fun v => st.write Ref.map_static i j (f v)))) s0 with
    | none => rw [hl] at hp; exact Option.noConfusion hp
    | some s2 =>
      rw [hl] at hp
      simp only [Option.map_some', Option.some.injEq, Prod.mk.injEq] at hp
      obtain ⟨e1, e2⟩ := hp
      have key : s2.Inv ∧ ∃ t, s2.map_t = some t := by
        unfold forEachCell at hl
        apply forUpTo_preserves (fun (st : Store T) => st.Inv ∧ ∃ t, st.map_t = some t)
          _ _ _ s0 s2 h0 hl
        intro i st st1 hst hi
        apply forUpTo_preserves (fun (st : Store T) => st.Inv ∧ ∃ t, st.map_t = some t)
          _ _ _ st st1 hst hi
        intro j u u1 ⟨hu, t, hut⟩ hj
        beta_reduce at hj
        cases hme : u.deref this with
        | none => rw [hme] at hj; exact Option.noConfusion hj
        | some me =>
          rw [hme] at hj
          simp only [Option.some_bind] at hj
          cases hv : me.raw_get i j with
          | none => rw [hv] at hj; exact Option.noConfusion hj
          | some v =>
            rw [hv] at hj
            simp only [Option.some_bind] at hj
            refine ⟨write_inv u u1 hu _ i j (f v) hj, ?_⟩
            simp only [write, deref, hut, Option.some_bind] at hj
            cases hw1 : t.write i j (f v) with
            | none => rw [hw1] at hj; exact Option.noConfusion hj
            | some t1 =>
              rw [hw1] at hj
              simp only [Option.map_some', Option.some.injEq] at hj
              rw [← hj]
              exact ⟨t1, rfl⟩
      obtain ⟨hinv, t, ht⟩ := key
      rw [← e1, ← e2]
      exact ⟨hinv, t, ht, hinv.2.1 t ht⟩

end Store

namespace Store

variable {T : Type}

theorem construct_inv [Inhabited T] (s : Store T) (h : s.Inv) (rows cols : Nat) :
    (s.construct rows cols).1.Inv :=
  alloc_inv s h _ (Table.ctor_rect rows cols)

theorem copy_construct_inv [Inhabited T] (s s1 : Store T) (h : s.Inv) (a b : Ref)
    (hc : s.copy_construct a = some (s1, b)) : s1.Inv := by
  unfold copy_construct at hc
  cases hd : s.deref a with
  | none => rw [hd] at hc; exact Option.noConfusion hc
  | some ta =>
    rw [hd] at hc
    simp only [Option.some_bind] at hc
    cases hcopy : ta.ctor_copy with
    | none => rw [hcopy] at hc; exact Option.noConfusion hc
    | some tb =>
      rw [hcopy] at hc
      simp only [Option.map_some', Option.some.injEq] at hc
      have e : s1 = (s.alloc tb).1 := by rw [hc]
      rw [e]
      exact alloc_inv s h tb (Table.ctor_copy_result_rect ta tb hcopy).1

theorem assign_inv [Inhabited T] (s s1 : Store T) (h : s.Inv) (b a : Ref)
    (hc : s.assign b a = some s1) : s1.Inv := by
  unfold assign at hc
  cases hdb : s.deref b with
  | none => rw [hdb] at hc; exact Option.noConfusion hc
  | some tb =>
    cases hda : s.deref a with
    | none => rw [hdb, hda] at hc; exact Option.noConfusion hc
    | some ta =>
      rw [hdb, hda] at hc
      simp only [Option.some_bind] at hc
      cases hcopy : ta.ctor_copy with
      | none => rw [hcopy] at hc; exact Option.noConfusion hc
      | some t =>
        rw [hcopy] at hc
        simp only [Option.some_bind] at hc
        cases has : Table.operator_assign tb t with
        | none => rw [has] at hc; exact Option.noConfusion hc
        | some tb1 =>
          rw [has] at hc
          simp only [Option.map_some', Option.some.injEq] at hc
          rw [← hc]
          exact put_inv s h b tb1 (Table.operator_assign_result_rect tb t tb1 has)

theorem operator_call4_inv [Inhabited T] (s s1 : Store T) (h : s.Inv) (this : Ref)
    (i j m n : Nat) (r : Table T) (hc : s.operator_call4 this i j m n = some (s1, r)) :
    s1.Inv ∧ r.Rect := by
  unfold operator_call4 at hc
  cases hd : s.deref this with
  | none => rw [hd] at hc; exact Option.noConfusion hc
  | some self =>
    rw [hd] at hc
    simp only [Option.some_bind] at hc
    cases hp : Table.operator_call4 s.slice_t self i j m n with
    | none => rw [hp] at hc; exact Option.noConfusion hc
    | some p =>
      rw [hp] at hc
      simp only [Option.map_some', Option.some.injEq, Prod.mk.injEq] at hc
      obtain ⟨e1, e2⟩ := hc
      have hr := Table.operator_call4_result_rect s.slice_t self i j m n p.1 p.2 h.2.2 hp
      rw [← e1, ← e2]
      refine ⟨⟨h.1, h.2.1, ?_⟩, hr.2⟩
      intro u hu
      simp only [Option.some.injEq] at hu
      rw [← hu]; exact hr.1

end Store

/-! ## Construction and the class invariant -/

/-- C11: for all `rows > 0` and `cols > 0` (values of `unsigned int`), the
table `Table(rows, cols)` reports `get_rows() = rows` and `get_cols() = cols`,
every one of its cells holds the default value of `T`, which is also what every
access `t(i, j)` reads; and `Table(size)` is the same table as
`Table(size, size)`. -/
theorem C11_fresh_construction {T : Type} [Inhabited T] (rows cols : Nat) (hr : 0 < rows)
    (hc : 0 < cols) (hr32 : rows < 4294967296) (hc32 : cols < 4294967296) :
    (Table.ctor rows cols : Table T).get_rows = rows ∧
    (Table.ctor rows cols : Table T).get_cols = cols ∧
    (Table.ctor rows cols : Table T).Rect ∧
    (∀ i j, i < rows → j < cols → (Table.ctor rows cols : Table T).raw_get i j = some default) ∧
    (∀ i j, (Table.ctor rows cols : Table T).read i j = some default) ∧
    (∀ size, 0 < size → (Table.ctor_size size : Table T) = Table.ctor size size) := by
  refine ⟨rfl, rfl, Table.ctor_rect _ _, fun i j hi hj => Table.ctor_raw_get rows cols i j hi hj,
    ?_, fun _ _ => rfl⟩
  intro i j
  rw [Table.read_clamp _ (Table.ctor_rect _ _) ⟨hr32, hc32⟩ hr hc]
  simp only [Table.ctor_ROWS, Table.ctor_COLS]
  exact Table.ctor_raw_get rows cols _ _ (by omega) (by omega)

/-- C11 at `Table<unsigned>(2, 3)`. -/
theorem C11_fresh_construction_witness :
    0 < 2 ∧ 0 < 3 ∧ 2 < 4294967296 ∧ 3 < 4294967296 ∧
    (Table.ctor 2 3 : Table Nat).get_rows = 2 ∧ (Table.ctor 2 3 : Table Nat).get_cols = 3 ∧
    (Table.ctor 2 3 : Table Nat).tbl = [[0, 0, 0], [0, 0, 0]] :=
  ⟨by decide, by decide, by decide, by decide,
    (C11_fresh_construction 2 3 (by decide) (by decide) (by decide) (by decide)).1,
    (C11_fresh_construction 2 3 (by decide) (by decide) (by decide) (by decide)).2.1,
    by decide⟩

/-- C12: the predicate "the storage has exactly `ROWS` rows and every row has
exactly `COLS` elements" holds for the tables made by the three constructors,
is kept by `operator=` and by a write through the accessor, and holds for the
tables returned by the four-argument `operator()`, by `append_rows`, by
`append_cols` and by `operator+`; hence it holds for every table alive in
every state that a program reaches from the empty state. -/
theorem C12_rectangularity_invariant {T : Type} [Inhabited T] :
    (∀ rows cols, (Table.ctor rows cols : Table T).Rect) ∧
    (∀ size, (Table.ctor_size size : Table T).Rect) ∧
    (∀ t r : Table T, t.ctor_copy = some r → r.Rect) ∧
    (∀ t : Table T, t.Rect → ∃ r, t.ctor_copy = some r ∧ r.Rect) ∧
    (∀ this t r : Table T, Table.operator_assign this t = some r → r.Rect) ∧
    (∀ this t : Table T, t.Rect → ∃ r, Table.operator_assign this t = some r ∧ r.Rect) ∧
    (∀ (t t1 : Table T) (i j : Nat) (v : T), t.Rect → t.write i j v = some t1 → t1.Rect) ∧
    (∀ (st : Option (Table T)) (this : Table T) (i j m n : Nat) (t1 r : Table T),
      (∀ t, st = some t → t.Rect) → Table.operator_call4 st this i j m n = some (t1, r) →
      t1.Rect ∧ r.Rect) ∧
    (∀ a b r : Table T, a.append_rows b = some r → r.Rect) ∧
    (∀ a b r : Table T, a.append_cols b = some r → r.Rect) ∧
    (∀ (s s1 : Store T) (this r : Ref) (f : T → T), s.Inv →
      s.operator_plus this f = some (s1, r) → s1.Inv ∧ ∃ t, s1.deref r = some t ∧ t.Rect) ∧
    (Store.empty : Store T).Inv ∧
    (∀ (s : Store T) (rows cols : Nat), s.Inv → (s.construct rows cols).1.Inv) ∧
    (∀ (s s1 : Store T) (a b : Ref), s.Inv → s.copy_construct a = some (s1, b) → s1.Inv) ∧
    (∀ (s s1 : Store T) (b a : Ref), s.Inv → s.assign b a = some s1 → s1.Inv) ∧
    (∀ (s s1 : Store T) (r : Ref) (i j : Nat) (v : T), s.Inv →
      s.write r i j v = some s1 → s1.Inv) ∧
    (∀ (s s1 : Store T) (this : Ref) (i j m n : Nat) (r : Table T), s.Inv →
      s.operator_call4 this i j m n = some (s1, r) → s1.Inv ∧ r.Rect) := by
  refine ⟨Table.ctor_rect, fun size => Table.ctor_rect size size,
    fun t r h => (Table.ctor_copy_result_rect t r h).1,
    fun t h => ⟨t, Table.ctor_copy_rect t h, h⟩,
    Table.operator_assign_result_rect,
    fun this t h => ⟨t, Table.operator_assign_rect this t h, h⟩,
    fun t t1 i j v h hw => Table.write_rect t t1 i j v h hw,
    fun st this i j m n t1 r hst h =>
      Table.operator_call4_result_rect st this i j m n t1 r hst h,
    Table.append_rows_result_rect, Table.append_cols_result_rect,
    fun s s1 this r f h hp => Store.operator_plus_inv s s1 h this r f hp,
    Store.empty_inv,
    fun s rows cols h => Store.construct_inv s h rows cols,
    fun s s1 a b h hc => Store.copy_construct_inv s s1 h a b hc,
    fun s s1 b a h hc => Store.assign_inv s s1 h b a hc,
    fun s s1 r i j v h hw => Store.write_inv s s1 h r i j v hw,
    fun s s1 this i j m n r h hc => Store.operator_call4_inv s s1 h this i j m n r hc⟩

/-- C12 at the `2×3` grid of `1` with the `1×3` grid of `2` appended: the
`3×3` result is rectangular. -/
theorem C12_rectangularity_invariant_witness :
    ones23.append_rows twos13 = some ⟨[[1, 1, 1], [1, 1, 1], [2, 2, 2]], 3, 3⟩ ∧
    (⟨[[1, 1, 1], [1, 1, 1], [2, 2, 2]], 3, 3⟩ : Table Nat).Rect :=
  ⟨by decide,
    (@C12_rectangularity_invariant Nat _).2.2.2.2.2.2.2.2.1 ones23 twos13 _ (by decide)⟩

/-! ## The receiver and the result of `operator+` -/

/-- C13, evaluated at the failing input: in a program whose only object is the
`2×2` grid `[[1, 2], [3, 4]]`, `r = g + f` with `f(x) = x + 1` refers to the
static table `[[2, 3], [4, 5]]`; the call `r + h` with `h(x) = x * 10` has that
static as its receiver and writes into it, so that the receiver, which held
`[[2, 3], [4, 5]]` before the call, holds `[[20, 30], [40, 50]]` after it. -/
theorem C13_map_on_map_result_mutates_receiver :
    (Store.operator_plus store_grid2 (Ref.var 0) (fun x => x + 1)).bind
      (fun p => (Store.operator_plus p.1 p.2 (fun x => x * 10)).map
        (fun q => (p.2, p.1.deref p.2, q.1.deref p.2)))
    = some (Ref.map_static, some ⟨[[2, 3], [4, 5]], 2, 2⟩,
        some ⟨[[20, 30], [40, 50]], 2, 2⟩) := by
  decide

/-- C14, evaluated at the failing input: with the objects `a = [[7]]` and
`g = [[1, 2], [3, 4]]`, after the call `a + id` the call `g + id` returns the
`1×1` table `[[4]]`, which has neither the dimensions nor the elements of
`g`. -/
theorem C14_identity_map_second_call :
    (Store.operator_plus store_cell7_grid2 (Ref.var 0) (fun x => x)).bind
      (fun p => (Store.operator_plus p.1 (Ref.var 1) (fun x => x)).bind
        (fun q => q.1.deref q.2))
    = some ⟨[[4]], 1, 1⟩ := by
  decide

/-! ## Writing through the accessor -/

/-- C15: on a rectangular grid with positive dimensions, for every `(i, j)`
and every value `v`, the write `t(i, j) = v` is defined; afterwards a read of
`t(i, j)` gives `v`, `get_rows()` and `get_cols()` are unchanged, and every
cell other than `(min i (ROWS - 1), min j (COLS - 1))` holds the value it held
before. -/
theorem C15_write_through_access {T : Type} (t : Table T) (hrect : t.Rect)
    (hrange : t.InRange) (hR : 0 < t.ROWS) (hC : 0 < t.COLS) (i j : Nat) (v : T) :
    ∃ t1, t.write i j v = some t1 ∧ t1.read i j = some v ∧
      t1.get_rows = t.get_rows ∧ t1.get_cols = t.get_cols ∧ t1.Rect ∧
      ∀ a b, ¬ (a = min i (t.ROWS - 1) ∧ b = min j (t.COLS - 1)) →
        t1.raw_get a b = t.raw_get a b := by
  obtain ⟨t1, h1, h2, h3, h4, h5⟩ := Table.write_spec t hrect hrange hR hC i j v
  refine ⟨t1, h1, ?_, h3, h4, h2, ?_⟩
  · rw [Table.read_clamp t1 h2 ⟨by rw [h3]; exact hrange.1, by rw [h4]; exact hrange.2⟩
      (by omega) (by omega), h5, h3, h4]
    simp
  · intro a b hab
    rw [h5 a b]
    simp only [hab, if_false]

/-- C15 at the `3×3` sample grid, writing `9` through `(5, 1)`: the cell
`(2, 1)` changes. -/
theorem C15_write_through_access_witness :
    grid3.Rect ∧ grid3.InRange ∧ 0 < grid3.ROWS ∧ 0 < grid3.COLS ∧
    grid3.write 5 1 9 = some ⟨[[0, 1, 2], [3, 4, 5], [6, 9, 8]], 3, 3⟩ ∧
    ∃ t1, grid3.write 5 1 9 = some t1 ∧ t1.read 5 1 = some 9 :=
  ⟨by decide, by decide, by decide, by decide, by decide,
    (C15_write_through_access grid3 (by decide) (by decide) (by decide) (by decide)
      5 1 9).elim (fun t1 h => ⟨t1, h.1, h.2.1⟩)⟩

/-- C16: for a table constructed with `rows = 0` or `cols = 0` and for every
`(i, j)`, the clamp of the accessor computes `ROWS - 1` (respectively
`COLS - 1`) in `unsigned int`, which is `4294967295`; the access `tbl[i][j]`
is then outside the storage, so that `t(i, j)` refers to no cell: it can be
neither read nor written. -/
theorem C16_zero_dimension_access {T : Type} [Inhabited T] (rows cols : Nat)
    (h : rows = 0 ∨ cols = 0) (i j : Nat) :
    usub 0 1 = 4294967295 ∧
    (rows = 0 → (if i ≥ (Table.ctor rows cols : Table T).ROWS
      then usub (Table.ctor rows cols : Table T).ROWS 1 else i) = 4294967295) ∧
    (cols = 0 → (if j ≥ (Table.ctor rows cols : Table T).COLS
      then usub (Table.ctor rows cols : Table T).COLS 1 else j) = 4294967295) ∧
    (∀ a b, (Table.ctor rows cols : Table T).raw_get a b = none) ∧
    (Table.ctor rows cols : Table T).operator_call i j = none ∧
    (Table.ctor rows cols : Table T).read i j = none ∧
    (∀ v, (Table.ctor rows cols : Table T).write i j v = none) := by
  have hraw : ∀ a b, (Table.ctor rows cols : Table T).raw_get a b = none := by
    intro a b
    apply Table.raw_get_none_of_rect _ (Table.ctor_rect _ _)
    simp only [Table.ctor_ROWS, Table.ctor_COLS]
    omega
  have hcall : (Table.ctor rows cols : Table T).operator_call i j = none := by
    simp [Table.operator_call, hraw]
  refine ⟨by decide, ?_, ?_, hraw, hcall, ?_, ?_⟩
  · intro h0
    subst h0
    simp only [Table.ctor_ROWS, ge_iff_le, Nat.zero_le, if_true]
    decide
  · intro h0
    subst h0
    simp only [Table.ctor_COLS, ge_iff_le, Nat.zero_le, if_true]
    decide
  · simp [Table.read, hcall]
  · intro v
    simp [Table.write, hcall]

/-- C16 at `Table<unsigned>(0, 3)` and the indices `(0, 0)`. -/
theorem C16_zero_dimension_access_witness :
    ((0 : Nat) = 0 ∨ (3 : Nat) = 0) ∧
    (Table.ctor 0 3 : Table Nat).operator_call 0 0 = none :=
  ⟨by decide, (C16_zero_dimension_access 0 3 (by decide) 0 0).2.2.2.2.1⟩

/-! ## The first call of the four-argument `operator()` -/

/-- C18: on the first call of the four-argument `operator()` (static not yet
constructed), for a rectangular grid with positive dimensions, `i < ROWS`,
`j < COLS` and arbitrary `m`, `n`, with `m'` and `n'` the end indices after the
forcing rule: the call is defined, every read `tbl[i + a][j + b]` is inside the
storage of the receiver, and the returned table has `m' - i + 1` rows and
`n' - j + 1` columns with element `(a, b)` equal to the element
`(i + a, j + b)` of the receiver. -/
theorem C18_first_slice_correct {T : Type} [Inhabited T] (this : Table T)
    (hrect : this.Rect) (hrange : this.InRange) (hR : 0 < this.ROWS) (hC : 0 < this.COLS)
    (i j m n : Nat) (hi : i < this.ROWS) (hj : j < this.COLS) :
    ∃ t r, Table.operator_call4 none this i j m n = some (t, r) ∧ r.Rect ∧
      i ≤ (if i > m ∨ m ≥ this.ROWS then this.ROWS - 1 else m) ∧
      j ≤ (if j > n ∨ n ≥ this.COLS then this.COLS - 1 else n) ∧
      r.get_rows = (if i > m ∨ m ≥ this.ROWS then this.ROWS - 1 else m) - i + 1 ∧
      r.get_cols = (if j > n ∨ n ≥ this.COLS then this.COLS - 1 else n) - j + 1 ∧
      ∀ a b, a < r.get_rows → b < r.get_cols →
        uadd i a = i + a ∧ uadd j b = j + b ∧ i + a < this.ROWS ∧ j + b < this.COLS ∧
        ∃ v, this.raw_get (i + a) (j + b) = some v ∧ r.raw_get a b = some v := by
  obtain ⟨r, h1, h2, h3, h4, h5⟩ :=
    Table.operator_call4_first this hrect hrange hR hC i j m n (by omega) (by omega)
  have hm : i ≤ (if i > m ∨ m ≥ this.ROWS then this.ROWS - 1 else m) ∧
      (if i > m ∨ m ≥ this.ROWS then this.ROWS - 1 else m) < this.ROWS := by
    split <;> omega
  have hn : j ≤ (if j > n ∨ n ≥ this.COLS then this.COLS - 1 else n) ∧
      (if j > n ∨ n ≥ this.COLS then this.COLS - 1 else n) < this.COLS := by
    split <;> omega
  refine ⟨r, r, h1, h2, hm.1, hn.1, by rw [Table.get_rows, h3]; omega,
    by rw [Table.get_cols, h4]; omega, ?_⟩
  intro a b ha hb
  rw [Table.get_rows, h3] at ha
  rw [Table.get_cols, h4] at hb
  obtain ⟨hr1, hr2⟩ := hrange
  have hia : i + a < this.ROWS := by omega
  have hjb : j + b < this.COLS := by omega
  obtain ⟨v, hv⟩ := Table.raw_get_of_rect this hrect (i + a) (j + b) hia hjb
  refine ⟨by unfold uadd; omega, by unfold uadd; omega, hia, hjb, v, hv, ?_⟩
  rw [h5 a b (by rw [h3]; exact ha) (by rw [h4]; exact hb)]
  exact hv

/-- C18 at the `4×4` sample grid: the first call `g(1, 1, 2, 2)` returns
`[[5, 6], [9, 10]]`. -/
theorem C18_first_slice_correct_witness :
    grid4.Rect ∧ grid4.InRange ∧ 0 < grid4.ROWS ∧ 0 < grid4.COLS ∧ 1 < grid4.ROWS ∧
    1 < grid4.COLS ∧
    (Table.operator_call4 none grid4 1 1 2 2).map Prod.snd = some ⟨[[5, 6], [9, 10]], 2, 2⟩ ∧
    ∃ t r, Table.operator_call4 none grid4 1 1 2 2 = some (t, r) ∧ r.Rect :=
  ⟨by decide, by decide, by decide, by decide, by decide, by decide, by decide,
    (C18_first_slice_correct grid4 (by decide) (by decide) (by decide) (by decide)
      1 1 2 2 (by decide) (by decide)).elim
      (fun t h => h.elim (fun r hr => ⟨t, r, hr.1, hr.2.1⟩))⟩

/-! ## Formatted output -/

/-- A loop that, at iteration `k`, appends to its output a text made from the
`k`-th element of a list writes the texts of the first `n` elements in
order. -/
theorem forUpTo_append {α : Type} (l : List α) (g : α → List Char) (n : Nat)
    (body : Nat → List Char → Option (List Char)) (hn : n ≤ l.length)
    (h : ∀ k out, k < n → body k out = (l[k]?).map (fun x => out ++ g x))
    (init : List Char) :
    forUpTo n body init = some (init ++ ((l.take n).map g).flatten) := by
  induction n with
  | zero => simp [forUpTo]
  | succ k ih =>
    have hk : k < l.length := by omega
    simp only [forUpTo]
    rw [ih (by omega) (fun k1 out hk1 => h k1 out (by omega))]
    simp only [Option.some_bind]
    have e : l.take (k + 1) = l.take k ++ [l[k]] := by
      rw [List.take_succ, List.getElem?_eq_getElem hk]; rfl
    rw [h k _ (by omega), List.getElem?_eq_getElem hk, e]
    simp only [Option.map_some', List.map_append, List.map_cons, List.map_nil,
      List.flatten_append, List.flatten_cons, List.flatten_nil, List.append_nil,
      List.append_assoc]

/-- The length of a field written with `setw(w)`. -/
theorem setw_insert_length (w : Nat) (text : List Char) :
    (setw_insert w text).length = max w text.length := by
  simp only [setw_insert, List.length_append, List.length_replicate]
  omega

namespace Table

variable {T : Type}

/-- What `operator<<` writes for a rectangular table: a line break, then for
every row, in order, every element of the row, in order, as a field of width
`w` followed by a blank, and a line break after the row. -/
theorem operator_shl_spec (render : T → List Char) (w : Nat) (t : Table T) (h : t.Rect) :
    t.operator_shl render w = some (endl :: (t.tbl.map (fun row =>
      (row.map (fun x => setw_insert w (render x) ++ [blank])).flatten ++ [endl])).flatten) := by
  obtain ⟨hlen, hrow⟩ := h
  have hmain := forUpTo_append t.tbl
    (fun row => (row.map (fun x => setw_insert w (render x) ++ [blank])).flatten ++ [endl])
    t.ROWS
    (fun i out =>
      (forUpTo t.get_cols
        (fun j out => (t.read i j).map (fun x => out ++ setw_insert w (render x) ++ [blank]))
        out).map (fun out => out ++ [endl]))
    (by omega)
    (by
      intro i out hi
      have hi1 : i < t.tbl.length := by omega
      have hl : (t.tbl[i]).length = t.COLS := hrow _ (List.getElem_mem hi1)
      have hinner := forUpTo_append (t.tbl[i])
        (fun x => setw_insert w (render x) ++ [blank]) t.COLS
        (fun j out => (t.read i j).map (fun x => out ++ setw_insert w (render x) ++ [blank]))
        (by omega)
        (by
          intro j o hj
          beta_reduce
          rw [read_inside t ⟨hlen, hrow⟩ i j hi hj]
          simp only [raw_get, List.getElem?_eq_getElem hi1, Option.some_bind,
            List.append_assoc])
        out
      simp only [get_cols]
      rw [hinner, List.getElem?_eq_getElem hi1]
      have ht : List.take t.COLS (t.tbl[i]) = t.tbl[i] := by
        rw [← hl]; exact List.take_length _
      simp only [ht, Option.map_some', List.append_assoc])
    [endl]
  have ht : List.take t.ROWS t.tbl = t.tbl := by
    rw [← hlen]; exact List.take_length _
  rw [ht] at hmain
  unfold operator_shl
  simp only [get_rows]
  rw [hmain]
  rfl

end Table

/-- C17, refuted as stated: for the `1×1` grid `[[7]]` and field width `0`,
`operator<<` writes a line break, `7`, a blank and a line break; the layout
with the elements of a line separated by single blanks has no blank after the
only element. -/
theorem C17_counterexample :
    cell7.operator_shl render_nat 0 = some [endl, Char.ofNat 55, blank, endl] ∧
    cell7.format_as_specified render_nat 0 = [endl, Char.ofNat 55, endl] ∧
    cell7.operator_shl render_nat 0 ≠ some (cell7.format_as_specified render_nat 0) := by
  decide

/-- C17, amended: for every rectangular grid with `r` rows and `c` columns and
every field width `w`, `operator<<` writes a line break followed by exactly
`r` lines in row order, each ended by a line break, where line `i` consists of
the renderings of the elements of row `i` in column order, each padded on the
left with blanks to at least `w` characters and each followed by a single
blank (the last one included). -/
theorem C17_formatted_display {T : Type} (render : T → List Char) (w : Nat) (t : Table T)
    (hrect : t.Rect) :
    t.operator_shl render w = some (endl :: (t.tbl.map (fun row =>
      (row.map (fun x => setw_insert w (render x) ++ [blank])).flatten ++ [endl])).flatten) ∧
    (t.tbl.map (fun row =>
      (row.map (fun x => setw_insert w (render x) ++ [blank])).flatten ++ [endl])).length
      = t.get_rows ∧
    (∀ row ∈ t.tbl, (row.map (fun x => setw_insert w (render x) ++ [blank])).length
      = t.get_cols) ∧
    (∀ x : T, setw_insert w (render x)
        = List.replicate (w - (render x).length) blank ++ render x ∧
      w ≤ (setw_insert w (render x)).length) := by
  refine ⟨Table.operator_shl_spec render w t hrect, ?_, ?_, ?_⟩
  · rw [List.length_map]; exact hrect.1
  · intro row hrow
    rw [List.length_map]; exact hrect.2 row hrow
  · intro x
    refine ⟨rfl, ?_⟩
    rw [setw_insert_length]
    omega

/-- C17 (amended) at the `2×2` sample grid and field width `2`. -/
theorem C17_formatted_display_witness :
    grid2.Rect ∧
    grid2.operator_shl render_nat 2 = some
      [endl, blank, Char.ofNat 49, blank, blank, Char.ofNat 50, blank, endl,
        blank, Char.ofNat 51, blank, blank, Char.ofNat 52, blank, endl] :=
  ⟨by decide, (C17_formatted_display render_nat 2 grid2 (by decide)).1.trans (by decide)⟩

/-! ## `operator+` when the static has the receiver's dimensions -/

namespace Table

variable {T : Type}

/-- The nested loop that assigns `val i j` to the cell `(i, j)`, where the
step at `(i, j)` may depend on the cells not yet assigned still holding their
initial values (the table may be read while it is being filled). -/
theorem forEachCell_fill_inplace (R C : Nat) (body : Nat → Nat → Table T → Option (Table T))
    (val : Nat → Nat → T) (t0 : Table T) (hrect : t0.Rect) (hR : R ≤ t0.ROWS)
    (hC : C ≤ t0.COLS)
    (hbody : ∀ i j s, i < R → j < C → s.Rect → s.ROWS = t0.ROWS → s.COLS = t0.COLS →
      (∀ a b, ¬ ((a < i ∧ b < C) ∨ (a = i ∧ b < j)) → s.raw_get a b = t0.raw_get a b) →
      body i j s = s.raw_set i j (val i j)) :
    ∃ t1, forEachCell R C body t0 = some t1 ∧ t1.Rect ∧ t1.ROWS = t0.ROWS ∧
      t1.COLS = t0.COLS ∧
      ∀ a b, t1.raw_get a b = if a < R ∧ b < C then some (val a b) else t0.raw_get a b := by
  unfold forEachCell
  apply forUpTo_inv
    (fun i (s : Table T) => s.Rect ∧ s.ROWS = t0.ROWS ∧ s.COLS = t0.COLS ∧
      ∀ a b, s.raw_get a b = if a < i ∧ b < C then some (val a b) else t0.raw_get a b)
  · exact ⟨hrect, rfl, rfl, by intro a b; simp⟩
  · intro i s hi ⟨hsr, hsR, hsC, hsg⟩
    have key := forUpTo_inv
      (fun j (u : Table T) => u.Rect ∧ u.ROWS = t0.ROWS ∧ u.COLS = t0.COLS ∧
        ∀ a b, u.raw_get a b =
          if (a < i ∧ b < C) ∨ (a = i ∧ b < j) then some (val a b) else t0.raw_get a b)
      C (fun j => body i j) s
      ⟨hsr, hsR, hsC, by intro a b; rw [hsg a b]; simp⟩
      (by
        intro j u hj ⟨hur, huR, huC, hug⟩
        show ∃ st1, body i j u = some st1 ∧ (st1.Rect ∧ st1.ROWS = t0.ROWS ∧
          st1.COLS = t0.COLS ∧ ∀ a b, st1.raw_get a b =
            if (a < i ∧ b < C) ∨ (a = i ∧ b < j + 1) then some (val a b) else t0.raw_get a b)
        rw [hbody i j u hi hj hur huR huC
          (by intro a b hab; rw [hug a b]; simp only [hab, if_false])]
        obtain ⟨u1, hu1, hr1, hR1, hC1, hg1⟩ :=
          raw_set_spec u hur i j (val i j) (by omega) (by omega)
        refine ⟨u1, hu1, hr1, by omega, by omega, ?_⟩
        intro a b
        rw [hg1 a b, hug a b]
        by_cases h1 : a = i ∧ b = j
        · obtain ⟨rfl, rfl⟩ := h1
          simp
        · have h2 : ((a < i ∧ b < C) ∨ (a = i ∧ b < j + 1)) ↔
              ((a < i ∧ b < C) ∨ (a = i ∧ b < j)) := by
            constructor
            · rintro (h | ⟨h3, h4⟩)
              · exact Or.inl h
              · exact Or.inr ⟨h3, by
                  rcases Nat.lt_succ_iff_lt_or_eq.mp h4 with h5 | h5
                  · exact h5
                  · exact absurd ⟨h3, h5⟩ h1⟩
            · rintro (h | ⟨h3, h4⟩)
              · exact Or.inl h
              · exact Or.inr ⟨h3, by omega⟩
          simp only [h1, if_false, h2])
    obtain ⟨u, hu, hur, huR, huC, hug⟩ := key
    refine ⟨u, hu, hur, huR, huC, ?_⟩
    intro a b
    rw [hug a b]
    have h2 : ((a < i ∧ b < C) ∨ (a = i ∧ b < C)) ↔ (a < i + 1 ∧ b < C) := by
      constructor
      · rintro (⟨h3, h4⟩ | ⟨h3, h4⟩)
        · exact ⟨by omega, h4⟩
        · exact ⟨by omega, h4⟩
      · rintro ⟨h3, h4⟩
        rcases Nat.lt_succ_iff_lt_or_eq.mp h3 with h5 | h5
        · exact Or.inl ⟨h5, h4⟩
        · exact Or.inr ⟨h5, h4⟩
    simp only [h2]

end Table

namespace Store

variable {T : Type}

/-- The call `this + f` when the static of `operator+` is not yet constructed
or is rectangular with the dimensions of the receiver, the receiver being any
object, the static itself included: the call is defined, only the static
changes, and afterwards it holds `f` of what the receiver held before the
call, cell by cell. -/
theorem operator_plus_spec [Inhabited T] (s : Store T) (this : Ref) (f : T → T)
    (self : Table T) (hself : s.deref this = some self) (hrect : self.Rect)
    (hstatic : ∀ t, s.map_t = some t → t.Rect ∧ t.ROWS = self.ROWS ∧ t.COLS = self.COLS) :
    ∃ s1 t1, s.operator_plus this f = some (s1, Ref.map_static) ∧ s1.map_t = some t1 ∧
      s1.vars = s.vars ∧ s1.slice_t = s.slice_t ∧ t1.Rect ∧ t1.ROWS = self.ROWS ∧
      t1.COLS = self.COLS ∧
      ∀ i j, i < self.ROWS → j < self.COLS → t1.raw_get i j = (self.raw_get i j).map f := by
  obtain ⟨vars, mt, sl⟩ := s
  -- the static once the declaration has been passed
  obtain ⟨t0, ht0, hrect0, hR0, hC0, halias⟩ : ∃ t0 : Table T,
      (match mt with
        | some _ => (⟨vars, mt, sl⟩ : Store T)
        | none => ⟨vars, some (Table.ctor self.ROWS self.COLS), sl⟩) = ⟨vars, some t0, sl⟩ ∧
      t0.Rect ∧ t0.ROWS = self.ROWS ∧ t0.COLS = self.COLS ∧
      (this = Ref.map_static → t0 = self) := by
    cases mt with
    | none =>
      refine ⟨Table.ctor self.ROWS self.COLS, rfl, Table.ctor_rect _ _, rfl, rfl, ?_⟩
      intro e
      rw [e] at hself
      exact Option.noConfusion hself
    | some t =>
      obtain ⟨h1, h2, h3⟩ := hstatic t rfl
      refine ⟨t, rfl, h1, h2, h3, ?_⟩
      intro e
      rw [e] at hself
      exact Option.some.inj hself
  -- the receiver, as seen while the static holds `t`
  have hderef : ∀ t : Table T, (⟨vars, some t, sl⟩ : Store T).deref this =
      some (if this = Ref.map_static then t else self) := by
    intro t
    cases this with
    | var k =>
      rw [if_neg (fun e => Ref.noConfusion e)]
      exact hself
    | map_static =>
      rw [if_pos rfl]
      rfl
  have hlift : ∀ i j (t : Table T),
      ((⟨vars, some t, sl⟩ : Store T).deref this).bind (fun me =>
        (me.raw_get i j).bind (fun v =>
          (⟨vars, some t, sl⟩ : Store T).write Ref.map_static i j (f v))) =
      (((if this = Ref.map_static then t else self).raw_get i j).bind
        (fun v => t.write i j (f v))).map
        (fun t1 => (⟨vars, some t1, sl⟩ : Store T)) := by
    intro i j t
    rw [hderef t]
    simp only [Option.some_bind]
    cases (if this = Ref.map_static then t else self).raw_get i j with
    | none => rfl
    | some v =>
      simp only [Option.some_bind, write, deref, put]
  obtain ⟨t1, hloop, hrect1, hR1, hC1, hg1⟩ := Table.forEachCell_fill_inplace
    self.ROWS self.COLS
    (fun i j t => ((if this = Ref.map_static then t else self).raw_get i j).bind
      (fun v => t.write i j (f v)))
    (fun i j => f ((self.raw_get i j).getD default)) t0 hrect0 (by omega) (by omega)
    (by
      intro i j u hi hj hu huR huC hfresh
      have hread : (if this = Ref.map_static then u else self).raw_get i j
          = self.raw_get i j := by
        by_cases e : this = Ref.map_static
        · rw [if_pos e, hfresh i j (by omega), halias e]
        · rw [if_neg e]
      obtain ⟨v, hv⟩ := Table.raw_get_of_rect self hrect i j hi hj
      beta_reduce
      rw [hread, hv]
      simp only [Option.some_bind, Option.getD_some]
      exact Table.write_inside u hu i j (f v) (by omega) (by omega))
  have hstore : forEachCell self.ROWS self.COLS
      (fun i j st =>
        (st.deref this).bind (fun me =>
          (me.raw_get i j).bind (fun v => st.write Ref.map_static i j (f v))))
      (⟨vars, some t0, sl⟩ : Store T) = some ⟨vars, some t1, sl⟩ := by
    unfold forEachCell at hloop ⊢
    rw [forUpTo_lift (fun t => (⟨vars, some t, sl⟩ : Store T)) self.ROWS _
      (fun i => forUpTo self.COLS (fun j t =>
        ((if this = Ref.map_static then t else self).raw_get i j).bind
          (fun v => t.write i j (f v))))
      (fun i t _ => forUpTo_lift (fun t => (⟨vars, some t, sl⟩ : Store T)) self.COLS _ _
        (fun j u _ => hlift i j u) t) t0, hloop]
    rfl
  refine ⟨⟨vars, some t1, sl⟩, t1, ?_, rfl, rfl, rfl, hrect1, by omega, by omega, ?_⟩
  · unfold operator_plus
    rw [hself]
    simp only [Option.some_bind]
    rw [ht0, hstore]
    rfl
  · intro i j hi hj
    obtain ⟨v, hv⟩ := Table.raw_get_of_rect self hrect i j hi hj
    rw [hg1 i j, hv]
    simp [hi, hj]

end Store

/-- C19: for every call `this + f` in which the static of `operator+` has the
dimensions of the receiver — the first call, which constructs the static with
those dimensions, or a later call on a receiver of the same dimensions, the
static itself included — the call is defined, the table that the returned
reference refers to has the receiver's dimensions, its element `(i, j)` is `f`
of the element `(i, j)` that the receiver held before the call, and on a table
of these dimensions the accessor refers, for `i < ROWS` and `j < COLS`, to the
cell `(i, j)` itself. -/
theorem C19_map_matching_static {T : Type} [Inhabited T] (s : Store T) (this : Ref)
    (f : T → T) (self : Table T) (hself : s.deref this = some self) (hrect : self.Rect)
    (hstatic : ∀ t, s.map_t = some t →
      t.Rect ∧ t.get_rows = self.get_rows ∧ t.get_cols = self.get_cols) :
    ∃ s1 r t1, s.operator_plus this f = some (s1, r) ∧ s1.deref r = some t1 ∧
      t1.get_rows = self.get_rows ∧ t1.get_cols = self.get_cols ∧
      (∀ i j, i < self.get_rows → j < self.get_cols →
        ∃ v, self.raw_get i j = some v ∧ t1.raw_get i j = some (f v) ∧
          t1.read i j = some (f v)) ∧
      (∀ (t : Table T) (i j : Nat), t.Rect → t.get_rows = self.get_rows →
        t.get_cols = self.get_cols → i < self.get_rows → j < self.get_cols →
        t.operator_call i j = some (i, j)) := by
  obtain ⟨s1, t1, h1, h2, _, _, h5, h6, h7, h8⟩ :=
    Store.operator_plus_spec s this f self hself hrect hstatic
  refine ⟨s1, Ref.map_static, t1, h1, h2, h6, h7, ?_, ?_⟩
  · intro i j hi hj
    simp only [Table.get_rows, Table.get_cols] at hi hj
    obtain ⟨v, hv⟩ := Table.raw_get_of_rect self hrect i j hi hj
    have hg : t1.raw_get i j = some (f v) := by
      rw [h8 i j hi hj, hv]; rfl
    refine ⟨v, hv, hg, ?_⟩
    rw [Table.read_inside t1 h5 i j (by omega) (by omega)]
    exact hg
  · intro t i j ht htR htC hi hj
    simp only [Table.get_rows, Table.get_cols] at htR htC hi hj
    exact Table.operator_call_inside t ht i j (by omega) (by omega)

/-- C19 at the first call on the `2×2` sample grid with `f(x) = x + 1`. -/
theorem C19_map_matching_static_witness :
    store_grid2.deref (Ref.var 0) = some grid2 ∧ grid2.Rect ∧ store_grid2.map_t = none ∧
    (∃ s1 r t1, store_grid2.operator_plus (Ref.var 0) (fun x => x + 1) = some (s1, r) ∧
      s1.deref r = some t1 ∧ t1.get_rows = 2 ∧ t1.get_cols = 2) ∧
    (store_grid2.operator_plus (Ref.var 0) (fun x => x + 1)).bind (fun p => p.1.deref p.2)
      = some ⟨[[2, 3], [4, 5]], 2, 2⟩ :=
  ⟨by decide, by decide, by decide,
    (C19_map_matching_static store_grid2 (Ref.var 0) (fun x => x + 1) grid2 (by decide)
      (by decide) (fun t h => Option.noConfusion h)).elim
      (fun s1 h => h.elim (fun r h1 => h1.elim
        (fun t1 h2 => ⟨s1, r, t1, h2.1, h2.2.1, h2.2.2.1, h2.2.2.2.1⟩))),
    by decide⟩

/-! ## Associativity of row concatenation -/

/-- C20: for rectangular grids `a`, `b`, `c` with the same `COLS > 0` and
positive row counts whose sum is below `2 ^ 32`, `a.append_rows(b)
.append_rows(c)` and `a.append_rows(b.append_rows(c))` are both defined and
have the same `get_rows()`, the same `get_cols()` and the same element at
every index: they are the same table. -/
theorem C20_append_rows_associative {T : Type} [Inhabited T] (a b c : Table T)
    (ha : a.Rect) (hb : b.Rect) (hc : c.Rect) (hra : a.InRange) (hrb : b.InRange)
    (hrc : c.InRange) (hab : a.COLS = b.COLS) (hbc : b.COLS = c.COLS) (hpos : 0 < a.COLS)
    (hRa : 0 < a.ROWS) (hRb : 0 < b.ROWS) (hRc : 0 < c.ROWS)
    (hsum : a.ROWS + b.ROWS + c.ROWS < 4294967296) :
    ∃ x y, (a.append_rows b).bind (fun ab => ab.append_rows c) = some x ∧
      (b.append_rows c).bind (fun bc => a.append_rows bc) = some y ∧
      x.get_rows = y.get_rows ∧ x.get_cols = y.get_cols ∧
      (∀ i j, x.raw_get i j = y.raw_get i j) ∧
      x.get_rows = a.ROWS + b.ROWS + c.ROWS ∧ x.get_cols = a.COLS ∧
      0 < x.get_rows ∧ x = y := by
  obtain ⟨ab, e1, r1, R1, C1, g1⟩ := Table.append_rows_spec a b ha hb hra hrb (by omega)
  have eR1 : ab.ROWS = a.ROWS + b.ROWS := by
    rw [R1]; unfold uadd; omega
  obtain ⟨x, e2, r2, R2, C2, g2⟩ := Table.append_rows_spec ab c r1 hc
    ⟨by omega, by rw [C1]; exact hra.2⟩ hrc (by omega)
  have eR2 : x.ROWS = a.ROWS + b.ROWS + c.ROWS := by
    rw [R2, eR1]; unfold uadd; omega
  obtain ⟨bc, e3, r3, R3, C3, g3⟩ := Table.append_rows_spec b c hb hc hrb hrc (by omega)
  have eR3 : bc.ROWS = b.ROWS + c.ROWS := by
    rw [R3]; unfold uadd; omega
  obtain ⟨y, e4, r4, R4, C4, g4⟩ := Table.append_rows_spec a bc ha r3 hra
    ⟨by omega, by rw [C3]; exact hrb.2⟩ (by omega)
  have eR4 : y.ROWS = a.ROWS + b.ROWS + c.ROWS := by
    rw [R4, eR3]; unfold uadd; omega
  have hxy : x = y := by
    apply Table.ext_of_raw_get x y r2 r4 (by omega) (by omega)
    intro i j hi hj
    rw [(g2 i j hi hj).1, (g4 i j (by omega) (by omega)).1]
    have hj1 : j < a.COLS := by omega
    have m1 : min j (b.COLS - 1) = j := by omega
    have m2 : min j (c.COLS - 1) = j := by omega
    have m3 : min j (bc.COLS - 1) = j := by omega
    rw [m2, m3]
    by_cases h1 : i < a.ROWS
    · have h2 : i < ab.ROWS := by omega
      simp only [h2, h1, if_true]
      rw [(g1 i j h2 (by omega)).1]
      simp only [h1, if_true]
    · by_cases h2 : i < ab.ROWS
      · simp only [h2, h1, if_true, if_false]
        rw [(g1 i j h2 (by omega)).1, (g3 (i - a.ROWS) j (by omega) (by omega)).1, m1, m2]
        have h3 : i - a.ROWS < b.ROWS := by omega
        simp only [h1, h3, if_true, if_false]
      · simp only [h2, h1, if_false]
        rw [(g3 (i - a.ROWS) j (by omega) (by omega)).1, m2]
        have h3 : ¬ i - a.ROWS < b.ROWS := by omega
        simp only [h3, if_false]
        congr 1
        omega
  refine ⟨x, y, ?_, ?_, ?_, ?_, ?_, eR2, by rw [Table.get_cols, C2, C1], ?_, hxy⟩
  · rw [e1]; exact e2
  · rw [e3]; exact e4
  · rw [hxy]
  · rw [hxy]
  · intro i j; rw [hxy]
  · rw [Table.get_rows, eR2]; omega

/-- C20 at the `2×3` grid of `1` and twice the `1×3` grid of `2`. -/
theorem C20_append_rows_associative_witness :
    ones23.Rect ∧ twos13.Rect ∧ ones23.InRange ∧ twos13.InRange ∧
    ones23.COLS = twos13.COLS ∧ 0 < ones23.COLS ∧ 0 < ones23.ROWS ∧ 0 < twos13.ROWS ∧
    ones23.ROWS + twos13.ROWS + twos13.ROWS < 4294967296 ∧
    (∃ x y, (ones23.append_rows twos13).bind (fun ab => ab.append_rows twos13) = some x ∧
      (twos13.append_rows twos13).bind (fun bc => ones23.append_rows bc) = some y ∧
      x.get_rows = y.get_rows ∧ x.get_cols = y.get_cols) ∧
    (ones23.append_rows twos13).bind (fun ab => ab.append_rows twos13)
      = some ⟨[[1, 1, 1], [1, 1, 1], [2, 2, 2], [2, 2, 2]], 4, 3⟩ :=
  ⟨by decide, by decide, by decide, by decide, by decide, by decide, by decide, by decide,
    by decide,
    (C20_append_rows_associative ones23 twos13 twos13 (by decide) (by decide) (by decide)
      (by decide) (by decide) (by decide) (by decide) (by decide) (by decide) (by decide)
      (by decide) (by decide) (by decide)).elim
      (fun x h => h.elim (fun y hy => ⟨x, y, hy.1, hy.2.1, hy.2.2.1, hy.2.2.2.1⟩)),
    by decide⟩
